import Mathlib

/-!
Shallow embedding of `language/evm/move-to-yul/src/solidity_ty.rs`: the
Solidity ABI type model with its string parser, signature parser, layout
calculator and cross-type-system compatibility checker.

Conventions of the embedding:
* Rust `&str` values are embedded as `List Char`.  All inputs relevant to
  the verified properties are ASCII, where Rust byte indices and Lean char
  indices coincide.
* Rust `usize` is embedded as `Nat`; the 64-bit bound of `usize` is made
  explicit exactly where the source can observe it (`str::parse::<usize>`
  overflow), via `USIZE_MAX`.
* `anyhow::Result<T>` is embedded as `Except String T`; `.context(msg)?`
  on a failed sub-parse is embedded as an `Except.error` carrying the
  context message.
* the recursive descent of `SolidityType::parse` is embedded with an
  explicit fuel argument (`parseWithFuel`), with the fuel fixed to
  `length + 1`, which is proved sufficient; this keeps the parser
  computable by kernel reduction.
-/

namespace MoveToYul

/-! ## Character and string primitives (embedding Rust `str` methods) -/

/-- Whitespace test used by Rust `str::trim` / `split_whitespace`
(ASCII fragment of `char::is_whitespace`). -/
def isWs (c : Char) : Bool := c.isWhitespace

def trimLeftChars (s : List Char) : List Char := s.dropWhile isWs

def trimRightChars (s : List Char) : List Char := (s.reverse.dropWhile isWs).reverse

/-- Embeds Rust `str::trim`. -/
def trimChars (s : List Char) : List Char := trimLeftChars (trimRightChars s)

/-- Index of the last occurrence of `c` in `s`: embeds Rust `str::rfind(c)`. -/
def rfindIdx (s : List Char) (c : Char) : Option Nat :=
  match s with
  | [] => none
  | a :: rest =>
    match rfindIdx rest c with
    | some i => some (i + 1)
    | none => if a = c then some 0 else none

/-- Embeds Rust `str::strip_suffix`: the part of `s` before the suffix. -/
def stripSuffixChars (suf s : List Char) : Option (List Char) :=
  if suf.isSuffixOf s then some (s.take (s.length - suf.length)) else none

/-- Embeds Rust `str::strip_prefix`: the part of `s` after the prefix. -/
def stripPrefixChars (pre s : List Char) : Option (List Char) :=
  if pre.isPrefixOf s then some (s.drop pre.length) else none

/-- Embeds Rust `str::split(sep)`: empty pieces are kept, the result is
always non-empty. -/
def splitChar (sep : Char) : List Char → List (List Char)
  | [] => [[]]
  | c :: rest =>
    match splitChar sep rest with
    | [] => [[]]
    | h :: t => if c = sep then [] :: h :: t else (c :: h) :: t

/-- Embeds Rust `str::split_whitespace`: maximal runs of non-whitespace. -/
def splitWhitespace (s : List Char) : List (List Char) :=
  let step : Char → (List Char × List (List Char)) → (List Char × List (List Char)) :=
    fun c acc =>
      if isWs c then ([], if acc.1 = [] then acc.2 else acc.1 :: acc.2)
      else (c :: acc.1, acc.2)
  let r := s.foldr step ([], [])
  if r.1 = [] then r.2 else r.1 :: r.2

/-- The decimal digit characters, for rendering numbers. -/
def digitChar : Nat → Char
  | 0 => '0' | 1 => '1' | 2 => '2' | 3 => '3' | 4 => '4'
  | 5 => '5' | 6 => '6' | 7 => '7' | 8 => '8' | 9 => '9'
  | _ => '*'

/-- Fuelled decimal rendering of a natural number, most significant digit
first (fuel `n + 1` always suffices, see `natToCharsAux_eq`). -/
def natToCharsAux : Nat → Nat → List Char
  | 0, _ => []
  | fuel + 1, n =>
    if n < 10 then [digitChar n]
    else natToCharsAux fuel (n / 10) ++ [digitChar (n % 10)]

/-- Decimal rendering of a natural number: embeds Rust `write!("{}", n)`
for an unsigned integer. -/
def natToChars (n : Nat) : List Char := natToCharsAux (n + 1) n

/-- Numeric value of a decimal digit character. -/
def charToDigit (c : Char) : Nat := c.toNat - 48

/-- Value of a most-significant-first decimal digit string. -/
def digitsToNat (s : List Char) : Nat := s.foldl (fun a c => a * 10 + charToDigit c) 0

/-- Largest value of Rust `usize` (the source targets 64-bit platforms). -/
def USIZE_MAX : Nat := 2 ^ 64 - 1

/-- Digit-string part of `str::parse::<usize>`: one or more ASCII
digits whose value fits in `usize`. -/
def parseUsizeDigits (digits : List Char) : Option Nat :=
  if digits ≠ [] && digits.all Char.isDigit then
    if digitsToNat digits ≤ USIZE_MAX then some (digitsToNat digits) else none
  else none

/-- Embeds Rust `str::parse::<usize>`: an optional leading `+`, then one
or more ASCII digits, and the value must fit in `usize`. -/
def parseUsize (s : List Char) : Option Nat :=
  parseUsizeDigits (if s.head? = some '+' then s.drop 1 else s)

/-! ## Error messages (`solidity_ty.rs` constants and inline literals) -/

def PARSE_ERR_MSG : String := "error happens when parsing the signature"

def PARSE_ERR_MSG_SIMPLE_TYPE : String := "error happens when parsing a simple type"

def PARSE_ERR_MSG_ARRAY_TYPE : String := "error happens when parsing an array type"

def PARSE_ERR_MSG_RETURN : String := "error happens when parsing the return types in the signature"

/-- Inline literal in `SolidityType::parse`. -/
def UNSUPPORTED_TYPES_MSG : String := "unsupported types"

/-- Inline literal in `SolidityType::parse`. -/
def ILLEGAL_TYPE_NAME_MSG : String := "illegal type name"

/-- Inline literal in `SoliditySignature::extract_para_type_str`. -/
def CALLDATA_UNSUPPORTED_MSG : String := "calldata is not supported yet"

/-- Inline literal in `SoliditySignature::extract_para_type_str`. -/
def DATA_LOCATION_MSG : String := "data location can only be specified for array or struct types"

/-! ## Data model -/

/-- `SolidityPrimitiveType` from `solidity_ty.rs`. -/
inductive SolidityPrimitiveType where
  | Bool : SolidityPrimitiveType
  | Uint (n : Nat) : SolidityPrimitiveType
  | Int (n : Nat) : SolidityPrimitiveType
  | Fixed (m n : Nat) : SolidityPrimitiveType
  | Ufixed (m n : Nat) : SolidityPrimitiveType
  | Address (payable : Bool) : SolidityPrimitiveType

/-- `SolidityType` from `solidity_ty.rs`. -/
inductive SolidityType where
  | Primitive (p : SolidityPrimitiveType) : SolidityType
  | Tuple (tys : List SolidityType) : SolidityType
  | DynamicArray (ty : SolidityType) : SolidityType
  | StaticArray (ty : SolidityType) (n : Nat) : SolidityType
  | SolidityString : SolidityType
  | Bytes : SolidityType
  | BytesStatic (n : Nat) : SolidityType

/-- `SignatureDataLocation` from `solidity_ty.rs` (calldata is not
supported and has no variant). -/
inductive SignatureDataLocation where
  | Memory : SignatureDataLocation

/-- `SoliditySignature` from `solidity_ty.rs`. -/
structure SoliditySignature where
  sig_name : List Char
  para_types : List (SolidityType × SignatureDataLocation)
  ret_types : List (SolidityType × SignatureDataLocation)

/-! ## Pretty printing (the `fmt::Display` impls) -/

/-- `impl fmt::Display for SolidityPrimitiveType`. -/
def SolidityPrimitiveType.display : SolidityPrimitiveType → List Char
  | .Bool => ("bool").data
  | .Uint n => ("uint").data ++ natToChars n
  | .Int n => ("int").data ++ natToChars n
  | .Fixed m n => ("fixed").data ++ natToChars m ++ 'x' :: natToChars n
  | .Ufixed m n => ("ufixed").data ++ natToChars m ++ 'x' :: natToChars n
  | .Address _ => ("address").data

mutual

/-- `impl fmt::Display for SolidityType`. -/
def SolidityType.display : SolidityType → List Char
  | .Primitive ty => ty.display
  | .Tuple tys => '(' :: SolidityType.displayList tys ++ [')']
  | .DynamicArray ty => ty.display ++ ['[', ']']
  | .StaticArray ty n => ty.display ++ '[' :: natToChars n ++ [']']
  | .SolidityString => ("string").data
  | .Bytes => ("bytes").data
  | .BytesStatic n => ("bytes").data ++ natToChars n

/-- The `Display` of the `Tuple` arm joins element renderings with `,`. -/
def SolidityType.displayList : List SolidityType → List Char
  | [] => []
  | [t] => SolidityType.display t
  | t :: ts => SolidityType.display t ++ ',' :: SolidityType.displayList ts

end

/-! ## Static / value-type classification -/

mutual

/-- `SolidityType::is_static`. -/
def SolidityType.is_static : SolidityType → Bool
  | .Primitive _ => true
  | .BytesStatic _ => true
  | .Tuple tys => SolidityType.is_static_all tys
  | .StaticArray ty _ => ty.is_static
  | _ => false

/-- The conjunction over a tuple's element types in `is_static`. -/
def SolidityType.is_static_all : List SolidityType → Bool
  | [] => true
  | t :: ts => t.is_static && SolidityType.is_static_all ts

end

/-- `SolidityType::is_value_type`. -/
def SolidityType.is_value_type : SolidityType → Bool
  | .Primitive _ => true
  | .BytesStatic _ => true
  | _ => false

/-! ## Layout calculator -/

mutual

/-- `SolidityType::abi_head_size`.  The `_ => 0` arm is unreachable under
the `is_static` guard; the Rust code panics there. -/
def SolidityType.abi_head_size (t : SolidityType) (padded : Bool) : Nat :=
  if t.is_static then
    match t with
    | .Primitive p =>
      match p with
      | .Bool => if padded then 32 else 1
      | .Int size | .Uint size | .Fixed size _ | .Ufixed size _ =>
        if padded then 32 else size / 8
      | .Address _ => if padded then 32 else 20
    | .StaticArray ty size =>
      if padded then ((ty.abi_head_size padded * size + 31) / 32) * 32
      else ty.abi_head_size padded * size
    | .BytesStatic size => if padded then 32 else size * 8
    | .Tuple tys => abi_head_sizes_sum tys padded
    | _ => 0
  else 32

/-- `abi_head_sizes_sum` (the Rust function sums `abi_head_sizes_vec`;
this recursive sum computes the same value). -/
def abi_head_sizes_sum : List SolidityType → Bool → Nat
  | [], _ => 0
  | t :: ts, padded => t.abi_head_size padded + abi_head_sizes_sum ts padded

end

/-- `abi_head_sizes_vec`. -/
def abi_head_sizes_vec (tys : List SolidityType) (padded : Bool) :
    List (SolidityType × Nat) :=
  tys.map (fun ty => (ty, ty.abi_head_size padded))

/-- `SolidityType::max_value`.  `none` embeds the `assert!(size <= 32)`
panic ("unexpected type size"). -/
def SolidityType.max_value (t : SolidityType) : Option (List Char) :=
  let size := t.abi_head_size false
  if size ≤ 32 then
    some (("$\x7bMAX_U").data ++ natToChars (size * 8) ++ ("\x7d").data)
  else none

/-! ## Range checks -/

/-- `check_type_int_range`. -/
def check_type_int_range (num : Nat) : Bool :=
  8 ≤ num && num ≤ 256 && num % 8 == 0

/-- `check_fixed_n_range`. -/
def check_fixed_n_range (num : Nat) : Bool := num ≤ 80

/-- `check_static_bytes_range`. -/
def check_static_bytes_range (num : Nat) : Bool := 1 ≤ num && num ≤ 32

/-- `check_simple_type_prefix` from the source: does the string start
with one of the reserved simple-type prefixes (in source order)? -/
def check_simple_type_head (ty_str : List Char) : Bool :=
  [("uint").data, ("int").data, ("ufixed").data, ("fixed").data,
   ("bool").data, ("address").data, ("bytes").data, ("string").data].any
    (fun p => p.isPrefixOf ty_str)

/-- First-character class of the regex `RE_GENERAL_TYPE`. -/
def isIdentStart (c : Char) : Bool := c.isAlpha || c == '_' || c == '$'

/-- Continuation-character class of the regex `RE_GENERAL_TYPE`. -/
def isIdentChar (c : Char) : Bool := isIdentStart c || c.isDigit

/-- Embeds the regex `RE_GENERAL_TYPE` from `SolidityType::parse`:
a full match of a Solidity identifier. -/
def re_general_type (s : List Char) : Bool :=
  match s with
  | [] => false
  | c :: rest => isIdentStart c && rest.all isIdentChar

/-! ## The simple-type parser (`SolidityType::parse_simple_type`)

The Rust function is a sequence of prefix-dispatched blocks with
fall-through: inside a block, a failing `parse::<usize>` returns an
error early through `?` while a failing range check falls through to
the next block.  Each block is embedded as one `simple_step_*`
definition whose fall-through continuation is the next block. -/

/-- Final block of `parse_simple_type`: `string`, then the catch-all
simple-type error. -/
def simple_step_string (s : List Char) : Except String SolidityType :=
  if s = ("string").data then .ok .SolidityString
  else .error PARSE_ERR_MSG_SIMPLE_TYPE

/-- `bytes` block of `parse_simple_type`. -/
def simple_step_bytes (s : List Char) : Except String SolidityType :=
  if (("bytes").data).isPrefixOf s then
    if 5 < s.length then
      match parseUsize (s.drop 5) with
      | none => .error PARSE_ERR_MSG
      | some num =>
        if check_static_bytes_range num then .ok (.BytesStatic num)
        else simple_step_string s
    else .ok .Bytes
  else simple_step_string s

/-- `ufixed` block of `parse_simple_type`. -/
def simple_step_ufixed (s : List Char) : Except String SolidityType :=
  if (("ufixed").data).isPrefixOf s then
    if 6 < s.length then
      match rfindIdx (s.drop 6) 'x' with
      | none => .error PARSE_ERR_MSG
      | some x_pos =>
        match parseUsize ((s.drop 6).take x_pos) with
        | none => .error PARSE_ERR_MSG
        | some num_m =>
          match parseUsize ((s.drop 6).drop (x_pos + 1)) with
          | none => .error PARSE_ERR_MSG
          | some num_n =>
            if check_type_int_range num_m && check_fixed_n_range num_n then
              .ok (.Primitive (.Ufixed num_m num_n))
            else simple_step_bytes s
    else .ok (.Primitive (.Ufixed 128 18))
  else simple_step_bytes s

/-- `fixed` block of `parse_simple_type`. -/
def simple_step_fixed (s : List Char) : Except String SolidityType :=
  if (("fixed").data).isPrefixOf s then
    if 5 < s.length then
      match rfindIdx (s.drop 5) 'x' with
      | none => .error PARSE_ERR_MSG
      | some x_pos =>
        match parseUsize ((s.drop 5).take x_pos) with
        | none => .error PARSE_ERR_MSG
        | some num_m =>
          match parseUsize ((s.drop 5).drop (x_pos + 1)) with
          | none => .error PARSE_ERR_MSG
          | some num_n =>
            if check_type_int_range num_m && check_fixed_n_range num_n then
              .ok (.Primitive (.Fixed num_m num_n))
            else simple_step_ufixed s
    else .ok (.Primitive (.Fixed 128 18))
  else simple_step_ufixed s

/-- `address` block of `parse_simple_type`. -/
def simple_step_address (s : List Char) : Except String SolidityType :=
  if (("address").data).isPrefixOf s then
    if 7 < s.length then
      if (splitWhitespace s).length = 2 ∧
          (splitWhitespace s).get? 1 = some (("payable").data) then
        .ok (.Primitive (.Address true))
      else simple_step_fixed s
    else
      if s = ("address").data then .ok (.Primitive (.Address false))
      else simple_step_fixed s
  else simple_step_fixed s

/-- `int` block of `parse_simple_type`. -/
def simple_step_int (s : List Char) : Except String SolidityType :=
  if (("int").data).isPrefixOf s then
    if 3 < s.length then
      match parseUsize (s.drop 3) with
      | none => .error PARSE_ERR_MSG
      | some num =>
        if check_type_int_range num then .ok (.Primitive (.Int num))
        else simple_step_address s
    else .ok (.Primitive (.Int 256))
  else simple_step_address s

/-- `uint` block of `parse_simple_type`. -/
def simple_step_uint (s : List Char) : Except String SolidityType :=
  if (("uint").data).isPrefixOf s then
    if 4 < s.length then
      match parseUsize (s.drop 4) with
      | none => .error PARSE_ERR_MSG
      | some num =>
        if check_type_int_range num then .ok (.Primitive (.Uint num))
        else simple_step_int s
    else .ok (.Primitive (.Uint 256))
  else simple_step_int s

/-- `SolidityType::parse_simple_type`. -/
def SolidityType.parse_simple_type (s : List Char) : Except String SolidityType :=
  if s = ("bool").data then .ok (.Primitive .Bool)
  else simple_step_uint s

/-! ## The type parser (`SolidityType::parse` / `parse_array`) -/

/-- Body of `SolidityType::parse_array`, with the recursive call to
`SolidityType::parse` abstracted as `recur`.  Note that — as in the
source — the element type is parsed (and its error propagated) before
the bracket part is validated. -/
def parse_array_core (recur : List Char → Except String SolidityType)
    (ty_str : List Char) : Except String SolidityType :=
  match rfindIdx ty_str '[' with
  | none => .error PARSE_ERR_MSG
  | some last_pos =>
    match recur (ty_str.take last_pos) with
    | .error e => .error e
    | .ok out_type =>
      if 2 ≤ (trimChars (ty_str.drop last_pos)).length ∧
          (trimChars (ty_str.drop last_pos)).head? = some '[' ∧
          (trimChars (ty_str.drop last_pos)).getLast? = some ']' then
        if trimChars (((trimChars (ty_str.drop last_pos)).drop 1).dropLast) ≠ [] then
          match parseUsize
              (trimChars (((trimChars (ty_str.drop last_pos)).drop 1).dropLast)) with
          | none => .error PARSE_ERR_MSG
          | some n => .ok (.StaticArray out_type n)
        else .ok (.DynamicArray out_type)
      else .error PARSE_ERR_MSG_ARRAY_TYPE

/-- Fuelled body of `SolidityType::parse`; fuel `length + 1` suffices
(`parseWithFuel_eq_parse`). -/
def parseWithFuel : Nat → List Char → Except String SolidityType
  | 0, _ => .error PARSE_ERR_MSG
  | fuel + 1, ty_str =>
    let trimmed := trimChars ty_str
    if trimmed.contains '[' then parse_array_core (parseWithFuel fuel) trimmed
    else if check_simple_type_head trimmed then
      SolidityType.parse_simple_type trimmed
    else if re_general_type trimmed then .error UNSUPPORTED_TYPES_MSG
    else .error ILLEGAL_TYPE_NAME_MSG

/-- `SolidityType::parse`. -/
def SolidityType.parse (ty_str : List Char) : Except String SolidityType :=
  parseWithFuel (ty_str.length + 1) ty_str

/-- `SolidityType::parse_array` (tying the recursion to `parse`). -/
def SolidityType.parse_array (ty_str : List Char) : Except String SolidityType :=
  parse_array_core SolidityType.parse ty_str

/-! ## The signature parser (`SoliditySignature`) -/

/-- Embeds the anchored regex `SIG_REG`
`^\s*(?P<sig_name>[a-zA-Z_$][a-zA-Z_$0-9]*)\s*\((?P<args>[^)]*)\)(?P<ret_ty>.*)?`
as the deterministic matcher it denotes: skip leading whitespace, read a
maximal identifier, skip whitespace, read `(`, capture everything up to
the first `)`, and capture the rest of the input.  (The regex `.` does
not match a newline; the verified inputs contain none, so capturing the
whole rest is faithful.) -/
def sigRegexCaptures (s : List Char) :
    Option (List Char × List Char × List Char) :=
  match trimLeftChars s with
  | [] => none
  | c :: rest =>
    if isIdentStart c then
      let sig_name := c :: rest.takeWhile isIdentChar
      let after_name := trimLeftChars (rest.dropWhile isIdentChar)
      match after_name with
      | '(' :: rest2 =>
        let args := rest2.takeWhile (fun d => d != ')')
        match rest2.dropWhile (fun d => d != ')') with
        | ')' :: ret => some (sig_name, args, ret)
        | _ => none
      | _ => none
    else none

/-- The per-parameter loop body of
`SoliditySignature::extract_para_type_str`:  trim, reject the empty
piece, strip a `memory` suffix (recording `Memory`), reject a
`calldata` suffix, parse the type, and reject a location suffix on a
value type. -/
def extract_para_loop :
    List (List Char) → Except String (List (SolidityType × SignatureDataLocation))
  | [] => .ok []
  | para :: paras =>
    if trimChars para = [] then .error PARSE_ERR_MSG
    else
      match stripSuffixChars (("memory").data) (trimChars para) with
      | some stripped_memory =>
        match SolidityType.parse stripped_memory with
        | .error e => .error e
        | .ok ty =>
          if ty.is_value_type then .error DATA_LOCATION_MSG
          else
            match extract_para_loop paras with
            | .error e => .error e
            | .ok rest => .ok ((ty, .Memory) :: rest)
      | none =>
        if (("calldata").data).isSuffixOf (trimChars para) then
          .error CALLDATA_UNSUPPORTED_MSG
        else
          match SolidityType.parse (trimChars para) with
          | .error e => .error e
          | .ok ty =>
            match extract_para_loop paras with
            | .error e => .error e
            | .ok rest => .ok ((ty, .Memory) :: rest)

/-- `SoliditySignature::extract_para_type_str`. -/
def extract_para_type_str (args : List Char) :
    Except String (List (SolidityType × SignatureDataLocation)) :=
  if trimChars args = [] then .ok []
  else extract_para_loop (splitChar ',' (trimChars args))

/-- `SoliditySignature::parse_into_solidity_signature`. -/
def parse_into_solidity_signature (sig_str : List Char) :
    Except String SoliditySignature :=
  match sigRegexCaptures (trimChars sig_str) with
  | none => .error PARSE_ERR_MSG
  | some (sig_name, para_type_str, ret_ty_str) =>
    let ret_ty_res : Except String (List Char) :=
      let ret_ty_str_trim := trimChars ret_ty_str
      if ret_ty_str_trim = [] then .ok []
      else
        match stripPrefixChars (("returns").data) ret_ty_str_trim with
        | none => .error PARSE_ERR_MSG_RETURN
        | some stripped_returns =>
          let stripped_returns_trim := trimChars stripped_returns
          if stripped_returns_trim.head? = some '(' ∧
              stripped_returns_trim.getLast? = some ')' then
            .ok ((stripped_returns_trim.drop 1).dropLast)
          else .error PARSE_ERR_MSG_RETURN
    match ret_ty_res with
    | .error e => .error e
    | .ok ret_ty =>
      match extract_para_type_str para_type_str with
      | .error e => .error e
      | .ok para_types =>
        match extract_para_type_str ret_ty with
        | .error e => .error e
        | .ok ret_types => .ok ⟨sig_name, para_types, ret_types⟩

/-- `SoliditySignature::compute_param_types`: comma-joined canonical
renderings (the same join as the `Tuple` arm of `Display`). -/
def compute_param_types (param_types : List SolidityType) : List Char :=
  SolidityType.displayList param_types

/-- `SoliditySignature::selector_signature`. -/
def SoliditySignature.selector_signature (s : SoliditySignature) : List Char :=
  s.sig_name ++ '(' :: compute_param_types (s.para_types.map Prod.fst) ++ [')']

/-! ## The Move-side type model and the compatibility checker

`move_model::ty::{PrimitiveType, Type}` live outside this file; the
embedding declares the variants this file's `match`es distinguish
(`TypeParameter` stands for the non-value shapes reaching the `_`
arms), and `Context` carries the two nominal-type queries the checker
uses, with struct identities collapsed to a `Nat` key. -/

inductive PrimitiveType where
  | Bool : PrimitiveType
  | U8 : PrimitiveType
  | U64 : PrimitiveType
  | U128 : PrimitiveType
  | Address : PrimitiveType
  | Signer : PrimitiveType
  | Num : PrimitiveType
  | Range : PrimitiveType
  | EventStore : PrimitiveType

inductive MoveType where
  | Primitive (p : PrimitiveType) : MoveType
  | Tuple (tys : List MoveType) : MoveType
  | Vector (ty : MoveType) : MoveType
  | Struct (qid : Nat) (targs : List MoveType) : MoveType
  | TypeParameter (idx : Nat) : MoveType

structure Context where
  is_u256 : Nat → Bool
  is_string : Nat → Bool

/-- `move_model`'s `Type::is_bool`. -/
def MoveType.is_bool : MoveType → Bool
  | .Primitive .Bool => true
  | _ => false

/-- `move_model`'s `Type::is_signer_or_address`. -/
def MoveType.is_signer_or_address : MoveType → Bool
  | .Primitive .Address => true
  | .Primitive .Signer => true
  | _ => false

/-- `SolidityPrimitiveType::check_uint_compatibility`: whether `move_ty`
is big enough to represent a `uint` of bit width `size`. -/
def check_uint_compatibility (ctx : Context)
    (size : Nat) (move_ty : MoveType) : Bool :=
  match move_ty with
  | .Primitive p =>
    match p with
    | .U8 => size == 8
    | .U64 => size ≤ 64
    | .U128 => size ≤ 128
    | _ => false
  | .Struct qid _ => ctx.is_u256 qid
  | _ => false

/-- `SolidityPrimitiveType::check_primitive_type_compatibility`. -/
def check_primitive_type_compatibility (ctx : Context)
    (p : SolidityPrimitiveType) (move_ty : MoveType) : Bool :=
  match p with
  | .Bool => move_ty.is_bool
  | .Uint i => check_uint_compatibility ctx i move_ty
  | .Int i => check_uint_compatibility ctx i move_ty
  | .Fixed _ _ => false
  | .Ufixed _ _ => false
  | .Address _ => move_ty.is_signer_or_address

/-- `SolidityType::check_type_compatibility`.  The `Tuple` arm panics in
the source ("unexpected solidity type"); it is embedded as `false`, a
value the verified claims never rely on. -/
def SolidityType.check_type_compatibility (ctx : Context) :
    SolidityType → MoveType → Bool
  | .Primitive p, move_ty =>
    check_primitive_type_compatibility ctx p move_ty
  | .DynamicArray array_type, move_ty =>
    match move_ty with
    | .Vector ety => SolidityType.check_type_compatibility ctx array_type ety
    | _ => false
  | .StaticArray array_type _, move_ty =>
    match move_ty with
    | .Vector ety => SolidityType.check_type_compatibility ctx array_type ety
    | _ => false
  | .SolidityString, move_ty =>
    match move_ty with
    | .Struct qid _ => ctx.is_string qid
    | .Vector ety => match ety with
      | .Primitive .U8 => true
      | _ => false
    | _ => false
  | .Bytes, move_ty =>
    match move_ty with
    | .Vector ety => match ety with
      | .Primitive .U8 => true
      | _ => false
    | _ => false
  | .BytesStatic _, move_ty =>
    match move_ty with
    | .Vector ety => match ety with
      | .Primitive .U8 => true
      | _ => false
    | _ => false
  | .Tuple _, _ => false

/-! ## Auxiliary predicates for the verified properties -/

mutual

/-- No payable address occurs anywhere in the type. -/
def SolidityType.no_payable : SolidityType → Bool
  | .Primitive (.Address b) => !b
  | .Primitive _ => true
  | .Tuple tys => SolidityType.no_payable_all tys
  | .DynamicArray ty => ty.no_payable
  | .StaticArray ty _ => ty.no_payable
  | .SolidityString => true
  | .Bytes => true
  | .BytesStatic _ => true

def SolidityType.no_payable_all : List SolidityType → Bool
  | [] => true
  | t :: ts => t.no_payable && SolidityType.no_payable_all ts

end

mutual

/-- Every numeric width in the type satisfies the data-model invariants
that keep the unpadded head size within one 32-byte word: integer and
fixed-point widths are at most 256, and every static byte array has at
most 4 bytes (because `abi_head_size` computes `n * 8` there). -/
def SolidityType.head_within_word : SolidityType → Bool
  | .Primitive (.Uint n) => n ≤ 256
  | .Primitive (.Int n) => n ≤ 256
  | .Primitive (.Fixed m _) => m ≤ 256
  | .Primitive (.Ufixed m _) => m ≤ 256
  | .Primitive _ => true
  | .BytesStatic n => n ≤ 4
  | .Tuple tys => SolidityType.head_within_word_all tys
  | .DynamicArray ty => ty.head_within_word
  | .StaticArray ty _ => ty.head_within_word
  | .SolidityString => true
  | .Bytes => true

def SolidityType.head_within_word_all : List SolidityType → Bool
  | [] => true
  | t :: ts => t.head_within_word && SolidityType.head_within_word_all ts

end

mutual

/-- Replace every payable address by a non-payable one. -/
def SolidityType.erase_payable : SolidityType → SolidityType
  | .Primitive (.Address _) => .Primitive (.Address false)
  | .Primitive p => .Primitive p
  | .Tuple tys => .Tuple (SolidityType.erase_payable_all tys)
  | .DynamicArray ty => .DynamicArray ty.erase_payable
  | .StaticArray ty n => .StaticArray ty.erase_payable n
  | .SolidityString => .SolidityString
  | .Bytes => .Bytes
  | .BytesStatic n => .BytesStatic n

def SolidityType.erase_payable_all : List SolidityType → List SolidityType
  | [] => []
  | t :: ts => t.erase_payable :: SolidityType.erase_payable_all ts

end

/-- The image of `SolidityType::parse`: exactly the types some input
string parses to (proved in `parse_sound` / `roundtrip_constructible`).
The side conditions record the range checks (and, for a static array's
length, the `usize` bound) that the parser enforces. -/
inductive Constructible : SolidityType → Prop where
  | bool : Constructible (.Primitive .Bool)
  | uint (n : Nat) (h : check_type_int_range n = true) :
      Constructible (.Primitive (.Uint n))
  | int (n : Nat) (h : check_type_int_range n = true) :
      Constructible (.Primitive (.Int n))
  | addr (b : Bool) : Constructible (.Primitive (.Address b))
  | fixed (m n : Nat) (hm : check_type_int_range m = true)
      (hn : check_fixed_n_range n = true) :
      Constructible (.Primitive (.Fixed m n))
  | ufixed (m n : Nat) (hm : check_type_int_range m = true)
      (hn : check_fixed_n_range n = true) :
      Constructible (.Primitive (.Ufixed m n))
  | bytesStatic (n : Nat) (h : check_static_bytes_range n = true) :
      Constructible (.BytesStatic n)
  | bytes : Constructible .Bytes
  | string : Constructible .SolidityString
  | dyn (t : SolidityType) (h : Constructible t) :
      Constructible (.DynamicArray t)
  | staticArr (t : SolidityType) (k : Nat) (h : Constructible t)
      (hk : k ≤ USIZE_MAX) : Constructible (.StaticArray t k)

/-! ## Lemmas: characters and digits -/

theorem digitChar_isDigit {d : Nat} (h : d < 10) : (digitChar d).isDigit = true := by
  interval_cases d <;> decide

theorem charToDigit_digitChar {d : Nat} (h : d < 10) :
    charToDigit (digitChar d) = d := by
  interval_cases d <;> decide

theorem isDigit_not_ws {c : Char} (h : c.isDigit = true) : isWs c = false := by
  cases hw : isWs c
  · rfl
  · exfalso
    have hd : c = ' ' ∨ c = '\t' ∨ c = '\x0d' ∨ c = '\n' := by
      simpa [isWs, Char.isWhitespace, or_assoc] using hw
    rcases hd with h1 | h1 | h1 | h1 <;> subst h1 <;> exact absurd h (by decide)

theorem ne_of_isDigit {c d : Char} (h : c.isDigit = true)
    (hd : d.isDigit = false) : c ≠ d := by
  intro he; subst he; rw [h] at hd; exact Bool.noConfusion hd

/-! ## Lemmas: decimal rendering -/

theorem natToCharsAux_eq {f n : Nat} (h : n < f) :
    natToCharsAux f n = natToChars n := by
  induction f using Nat.strong_induction_on generalizing n with
  | _ f ih =>
    match f with
    | 0 => omega
    | f' + 1 =>
      by_cases h10 : n < 10
      · simp [natToCharsAux, natToChars, h10]
      · have hlt : n / 10 < n := Nat.div_lt_self (by omega) (by omega)
        have e1 : natToCharsAux (f' + 1) n =
            natToCharsAux f' (n / 10) ++ [digitChar (n % 10)] := by
          simp [natToCharsAux, h10]
        have e2 : natToChars n =
            natToCharsAux n (n / 10) ++ [digitChar (n % 10)] := by
          simp [natToChars, natToCharsAux, h10]
        rw [e1, e2, ih f' (by omega) (by omega), ih n (by omega) hlt]

theorem natToChars_eq (n : Nat) :
    natToChars n = if n < 10 then [digitChar n]
      else natToChars (n / 10) ++ [digitChar (n % 10)] := by
  by_cases h : n < 10
  · simp [natToChars, natToCharsAux, h]
  · have hlt : n / 10 < n := Nat.div_lt_self (by omega) (by omega)
    simp only [natToChars, natToCharsAux, if_neg h]
    rw [natToCharsAux_eq hlt]
    rfl

theorem natToChars_ne_nil (n : Nat) : natToChars n ≠ [] := by
  rw [natToChars_eq]; split <;> simp

theorem natToChars_all_digit (n : Nat) :
    ∀ c ∈ natToChars n, c.isDigit = true := by
  induction n using Nat.strong_induction_on with
  | _ n ih =>
    rw [natToChars_eq]
    split
    next h =>
      intro c hc
      rw [List.mem_singleton] at hc; subst hc
      exact digitChar_isDigit h
    next h =>
      intro c hc
      rcases List.mem_append.mp hc with hc | hc
      · exact ih (n / 10) (Nat.div_lt_self (by omega) (by omega)) c hc
      · rw [List.mem_singleton] at hc; subst hc
        exact digitChar_isDigit (Nat.mod_lt _ (by omega))

theorem digitsToNat_append_digit (l : List Char) (c : Char) :
    digitsToNat (l ++ [c]) = digitsToNat l * 10 + charToDigit c := by
  simp [digitsToNat, List.foldl_append]

theorem digitsToNat_natToChars (n : Nat) : digitsToNat (natToChars n) = n := by
  induction n using Nat.strong_induction_on with
  | _ n ih =>
    rw [natToChars_eq]
    split
    next h =>
      show digitsToNat ([] ++ [digitChar n]) = n
      rw [digitsToNat_append_digit, charToDigit_digitChar h]
      simp [digitsToNat]
    next h =>
      rw [digitsToNat_append_digit,
        ih (n / 10) (Nat.div_lt_self (by omega) (by omega)),
        charToDigit_digitChar (Nat.mod_lt _ (by omega))]
      omega

theorem natToChars_head_ne_plus (n : Nat) :
    ¬ ((natToChars n).head? = some '+') := by
  have hd := natToChars_all_digit n
  have hne := natToChars_ne_nil n
  cases hnc : natToChars n with
  | nil => exact absurd hnc hne
  | cons c l =>
    have hdc : c.isDigit = true := hd c (by rw [hnc]; exact List.mem_cons_self c l)
    simp only [List.head?_cons, Option.some.injEq]
    intro hc; subst hc; exact absurd hdc (by decide)

theorem parseUsize_natToChars {n : Nat} (h : n ≤ USIZE_MAX) :
    parseUsize (natToChars n) = some n := by
  unfold parseUsize
  rw [if_neg (natToChars_head_ne_plus n)]
  unfold parseUsizeDigits
  have hcond : (decide (natToChars n ≠ []) && (natToChars n).all Char.isDigit) = true := by
    rw [Bool.and_eq_true, decide_eq_true_eq, List.all_eq_true]
    exact ⟨natToChars_ne_nil n, natToChars_all_digit n⟩
  rw [if_pos hcond, digitsToNat_natToChars, if_pos h]

theorem parseUsize_overflow {n : Nat} (h : USIZE_MAX < n) :
    parseUsize (natToChars n) = none := by
  unfold parseUsize
  rw [if_neg (natToChars_head_ne_plus n)]
  unfold parseUsizeDigits
  have hcond : (decide (natToChars n ≠ []) && (natToChars n).all Char.isDigit) = true := by
    rw [Bool.and_eq_true, decide_eq_true_eq, List.all_eq_true]
    exact ⟨natToChars_ne_nil n, natToChars_all_digit n⟩
  rw [if_pos hcond, digitsToNat_natToChars, if_neg (by omega)]

theorem parseUsizeDigits_le {s : List Char} {n : Nat}
    (h : parseUsizeDigits s = some n) : n ≤ USIZE_MAX := by
  unfold parseUsizeDigits at h
  split at h
  · split at h
    next hle => rw [Option.some.injEq] at h; omega
    next hle => exact Option.noConfusion h
  · exact Option.noConfusion h

theorem parseUsize_le {s : List Char} {n : Nat} (h : parseUsize s = some n) :
    n ≤ USIZE_MAX := by
  unfold parseUsize at h
  exact parseUsizeDigits_le h

/-! ## Lemmas: trimming -/

theorem dropWhile_eq_self_of_all {p : Char → Bool} {l : List Char}
    (h : ∀ c ∈ l, p c = false) : l.dropWhile p = l := by
  cases l with
  | nil => rfl
  | cons a l =>
    rw [List.dropWhile_cons, h a (List.mem_cons_self a l),
      if_neg Bool.false_ne_true]

theorem forall_mem_append_bool {p : Char → Bool} {a b : List Char} {v : Bool}
    (ha : ∀ c ∈ a, p c = v) (hb : ∀ c ∈ b, p c = v) :
    ∀ c ∈ a ++ b, p c = v := by
  intro c hc
  rcases List.mem_append.mp hc with h | h
  exacts [ha c h, hb c h]

theorem trimChars_of_no_ws {s : List Char} (h : ∀ c ∈ s, isWs c = false) :
    trimChars s = s := by
  unfold trimChars trimLeftChars trimRightChars
  rw [dropWhile_eq_self_of_all (fun c hc => h c (List.mem_reverse.mp hc)),
    List.reverse_reverse, dropWhile_eq_self_of_all h]

theorem trimChars_length_le (s : List Char) : (trimChars s).length ≤ s.length := by
  unfold trimChars trimLeftChars trimRightChars
  calc ((s.reverse.dropWhile isWs).reverse.dropWhile isWs).length
      ≤ (s.reverse.dropWhile isWs).reverse.length :=
        (List.dropWhile_sublist _).length_le
    _ = (s.reverse.dropWhile isWs).length := List.length_reverse ..
    _ ≤ s.reverse.length := (List.dropWhile_sublist _).length_le
    _ = s.length := List.length_reverse ..

theorem trimLeftChars_eq_self {s : List Char}
    (h : ∀ c, s.head? = some c → isWs c = false) : trimLeftChars s = s := by
  cases s with
  | nil => rfl
  | cons a l =>
    unfold trimLeftChars
    rw [List.dropWhile_cons, h a rfl, if_neg Bool.false_ne_true]

theorem trimRightChars_eq_self {s : List Char}
    (h : ∀ c, s.getLast? = some c → isWs c = false) : trimRightChars s = s := by
  unfold trimRightChars
  cases hs : s.reverse with
  | nil =>
    rw [List.dropWhile_nil]
    rw [← hs, List.reverse_reverse]
  | cons a l =>
    have ha : s.getLast? = some a := by
      rw [← List.head?_reverse, hs, List.head?_cons]
    rw [List.dropWhile_cons, h a ha, if_neg Bool.false_ne_true, ← hs,
      List.reverse_reverse]

theorem trimChars_eq_self {s : List Char}
    (h1 : ∀ c, s.head? = some c → isWs c = false)
    (h2 : ∀ c, s.getLast? = some c → isWs c = false) : trimChars s = s := by
  unfold trimChars
  rw [trimRightChars_eq_self h2, trimLeftChars_eq_self h1]

theorem trimRightChars_append_ws {s : List Char} {c : Char} (h : isWs c = true) :
    trimRightChars (s ++ [c]) = trimRightChars s := by
  unfold trimRightChars
  rw [List.reverse_append]
  simp [List.dropWhile_cons, h]

theorem trimChars_append_ws {s : List Char} {c : Char} (h : isWs c = true) :
    trimChars (s ++ [c]) = trimChars s := by
  unfold trimChars
  rw [trimRightChars_append_ws h]

/-! ## Lemmas: rfind -/

theorem rfindIdx_lt_length {s : List Char} {c : Char} {i : Nat}
    (h : rfindIdx s c = some i) : i < s.length := by
  induction s generalizing i with
  | nil => exact Option.noConfusion h
  | cons a l ih =>
    rw [rfindIdx] at h
    cases hr : rfindIdx l c with
    | some j =>
      rw [hr, Option.some.injEq] at h
      have := ih hr
      simp only [List.length_cons]
      omega
    | none =>
      rw [hr] at h
      by_cases hac : a = c
      · rw [if_pos hac, Option.some.injEq] at h
        simp only [List.length_cons]
        omega
      · rw [if_neg hac] at h
        exact Option.noConfusion h

theorem rfindIdx_eq_none {s : List Char} {c : Char} (h : c ∉ s) :
    rfindIdx s c = none := by
  induction s with
  | nil => rfl
  | cons a l ih =>
    rw [rfindIdx, ih (fun hm => h (List.mem_cons_of_mem a hm)),
      if_neg (fun (he : a = c) => h (he ▸ List.mem_cons_self a l))]

theorem rfindIdx_append_right {a b : List Char} {c : Char} {i : Nat}
    (h : rfindIdx b c = some i) : rfindIdx (a ++ b) c = some (a.length + i) := by
  induction a with
  | nil => simpa using h
  | cons x xs ih =>
    rw [List.cons_append, rfindIdx, ih]
    simp only [List.length_cons, Option.some.injEq]
    omega

/-! ## Lemmas: prefixes, suffixes, contains, split -/

theorem isPrefixOf_append_self (p s : List Char) :
    p.isPrefixOf (p ++ s) = true := by
  induction p with
  | nil => simp [List.isPrefixOf]
  | cons a l ih => simp [List.isPrefixOf, ih]

theorem isPrefixOf_false_of_head_ne {a b : Char} {as bs : List Char}
    (h : a ≠ b) : (a :: as).isPrefixOf (b :: bs) = false := by
  simp [List.isPrefixOf, h]

theorem isPrefixOf_cons_cons (a b : Char) (as bs : List Char) :
    (a :: as).isPrefixOf (b :: bs) = ((a == b) && as.isPrefixOf bs) := rfl

theorem isSuffixOf_append_self (s p : List Char) :
    p.isSuffixOf (s ++ p) = true := by
  unfold List.isSuffixOf
  rw [List.reverse_append]
  exact isPrefixOf_append_self ..

theorem stripSuffixChars_append (suf a : List Char) :
    stripSuffixChars suf (a ++ suf) = some a := by
  unfold stripSuffixChars
  rw [if_pos (by rw [isSuffixOf_append_self])]
  congr 1
  rw [List.length_append, Nat.add_sub_cancel, List.take_left]

theorem contains_eq_false_of_not_mem {s : List Char} {c : Char} (h : c ∉ s) :
    s.contains c = false := by
  rw [List.contains_eq_any_beq, List.any_eq_false]
  intro x hx hbeq
  rw [beq_iff_eq] at hbeq
  exact h (hbeq ▸ hx)

theorem contains_append_bracket (a b : List Char) (c : Char) :
    (a ++ c :: b).contains c = true := by
  rw [List.contains_eq_any_beq, List.any_eq_true]
  exact ⟨c, by simp, beq_self_eq_true c⟩

theorem splitChar_no_sep {s : List Char} {sep : Char} (h : sep ∉ s) :
    splitChar sep s = [s] := by
  induction s with
  | nil => rfl
  | cons a l ih =>
    rw [splitChar, ih (fun hm => h (List.mem_cons_of_mem a hm))]
    exact if_neg (fun (he : a = sep) => h (he ▸ List.mem_cons_self a l))

/-! ## Lemmas: the fuel of `parse` is irrelevant when large enough -/

theorem parse_array_core_congr {r1 r2 : List Char → Except String SolidityType}
    {t : List Char} (h : ∀ u, u.length < t.length → r1 u = r2 u) :
    parse_array_core r1 t = parse_array_core r2 t := by
  unfold parse_array_core
  split
  · rfl
  next last_pos hr =>
    have hlt : last_pos < t.length := rfindIdx_lt_length hr
    rw [h (t.take last_pos) (by rw [List.length_take]; omega)]

theorem parseWithFuel_eq_parse {f : Nat} :
    ∀ {s : List Char}, s.length < f →
      parseWithFuel f s = SolidityType.parse s := by
  induction f using Nat.strong_induction_on with
  | _ f ih =>
    intro s hs
    match f, hs with
    | f' + 1, hs =>
      show parseWithFuel (f' + 1) s = SolidityType.parse s
      unfold SolidityType.parse
      simp only [parseWithFuel]
      have htrim : (trimChars s).length ≤ s.length := trimChars_length_le s
      by_cases hc : (trimChars s).contains '[' = true
      · rw [if_pos hc, if_pos hc]
        exact parse_array_core_congr (fun u hu =>
          (ih f' (by omega) (by omega)).trans
            (ih s.length (by omega) (by omega)).symm)
      · rw [if_neg hc, if_neg hc]

/-- One-step unfolding of `SolidityType::parse` with the recursive call
expressed through `parse` itself. -/
theorem parse_def (s : List Char) : SolidityType.parse s =
    (if (trimChars s).contains '[' then
      parse_array_core SolidityType.parse (trimChars s)
    else if check_simple_type_head (trimChars s) then
      SolidityType.parse_simple_type (trimChars s)
    else if re_general_type (trimChars s) then .error UNSUPPORTED_TYPES_MSG
    else .error ILLEGAL_TYPE_NAME_MSG) := by
  unfold SolidityType.parse
  simp only [parseWithFuel]
  by_cases hc : (trimChars s).contains '[' = true
  · rw [if_pos hc, if_pos hc]
    exact parse_array_core_congr (fun u hu =>
      parseWithFuel_eq_parse (lt_of_lt_of_le hu (trimChars_length_le s)))
  · rw [if_neg hc, if_neg hc]

/-- `parse` only depends on the trimmed input. -/
theorem parse_trim_congr {s1 s2 : List Char} (h : trimChars s1 = trimChars s2) :
    SolidityType.parse s1 = SolidityType.parse s2 := by
  rw [parse_def, parse_def, h]

theorem parse_append_space (s : List Char) :
    SolidityType.parse (s ++ [' ']) = SolidityType.parse s :=
  parse_trim_congr (trimChars_append_ws (by decide))

/-! ## Lemmas: concrete string literals as character lists -/

theorem data_bool : ("bool").data = ['b', 'o', 'o', 'l'] := rfl

theorem data_uint : ("uint").data = ['u', 'i', 'n', 't'] := rfl

theorem data_int : ("int").data = ['i', 'n', 't'] := rfl

theorem data_ufixed : ("ufixed").data = ['u', 'f', 'i', 'x', 'e', 'd'] := rfl

theorem data_fixed : ("fixed").data = ['f', 'i', 'x', 'e', 'd'] := rfl

theorem data_address : ("address").data = ['a', 'd', 'd', 'r', 'e', 's', 's'] := rfl

theorem data_bytes : ("bytes").data = ['b', 'y', 't', 'e', 's'] := rfl

theorem data_string : ("string").data = ['s', 't', 'r', 'i', 'n', 'g'] := rfl

theorem data_memory : ("memory").data = ['m', 'e', 'm', 'o', 'r', 'y'] := rfl

theorem data_calldata : ("calldata").data =
    ['c', 'a', 'l', 'l', 'd', 'a', 't', 'a'] := rfl

/-! ## Lemmas: head-mismatch helpers -/

theorem cons_ne_cons_of_head {a b : Char} {as bs : List Char} (h : a ≠ b) :
    (a :: as) ≠ (b :: bs) := by
  intro he; injection he with h1 _; exact h h1

theorem isPrefixOf_false_second {a b c : Char} {as bs : List Char} (h : b ≠ c) :
    (a :: b :: as).isPrefixOf (a :: c :: bs) = false := by
  rw [isPrefixOf_cons_cons, isPrefixOf_false_of_head_ne h, Bool.and_false]

theorem not_mem_of_all_digit {d : List Char} {c : Char}
    (hd : ∀ x ∈ d, x.isDigit = true) (hc : c.isDigit = false) : c ∉ d :=
  fun hm => absurd (hd c hm) (by rw [hc]; exact Bool.noConfusion)

theorem le_usize_of_le_256 {n : Nat} (h : n ≤ 256) : n ≤ USIZE_MAX := by
  have he : USIZE_MAX = 18446744073709551615 := by norm_num [USIZE_MAX]
  omega

theorem check_type_int_range_spec {n : Nat} (h : check_type_int_range n = true) :
    8 ≤ n ∧ n ≤ 256 ∧ n % 8 = 0 := by
  unfold check_type_int_range at h
  simp only [Bool.and_eq_true, decide_eq_true_eq, beq_iff_eq] at h
  exact ⟨h.1.1, h.1.2, h.2⟩

theorem check_static_bytes_range_spec {n : Nat}
    (h : check_static_bytes_range n = true) : 1 ≤ n ∧ n ≤ 32 := by
  unfold check_static_bytes_range at h
  simp only [Bool.and_eq_true, decide_eq_true_eq] at h
  exact h

/-! ## Lemmas: stepping through `parse_simple_type` -/

theorem simple_step_uint_skip {s : List Char}
    (h : (("uint").data).isPrefixOf s = false) :
    simple_step_uint s = simple_step_int s := by
  unfold simple_step_uint; rw [h, if_neg Bool.false_ne_true]

theorem simple_step_int_skip {s : List Char}
    (h : (("int").data).isPrefixOf s = false) :
    simple_step_int s = simple_step_address s := by
  unfold simple_step_int; rw [h, if_neg Bool.false_ne_true]

theorem simple_step_address_skip {s : List Char}
    (h : (("address").data).isPrefixOf s = false) :
    simple_step_address s = simple_step_fixed s := by
  unfold simple_step_address; rw [h, if_neg Bool.false_ne_true]

theorem simple_step_fixed_skip {s : List Char}
    (h : (("fixed").data).isPrefixOf s = false) :
    simple_step_fixed s = simple_step_ufixed s := by
  unfold simple_step_fixed; rw [h, if_neg Bool.false_ne_true]

theorem simple_step_ufixed_skip {s : List Char}
    (h : (("ufixed").data).isPrefixOf s = false) :
    simple_step_ufixed s = simple_step_bytes s := by
  unfold simple_step_ufixed; rw [h, if_neg Bool.false_ne_true]

theorem simple_step_bytes_skip {s : List Char}
    (h : (("bytes").data).isPrefixOf s = false) :
    simple_step_bytes s = simple_step_string s := by
  unfold simple_step_bytes; rw [h, if_neg Bool.false_ne_true]

/-- `parse_simple_type` on the canonical rendering of `uint<n>`. -/
theorem parse_simple_uint_ok {n : Nat} (hn : check_type_int_range n = true) :
    SolidityType.parse_simple_type (("uint").data ++ natToChars n) =
      .ok (.Primitive (.Uint n)) := by
  have hle : n ≤ USIZE_MAX := le_usize_of_le_256 (check_type_int_range_spec hn).2.1
  have hbool : ("uint").data ++ natToChars n ≠ ("bool").data := by
    rw [data_uint, data_bool]; exact cons_ne_cons_of_head (by decide)
  have hlen : 4 < (("uint").data ++ natToChars n).length := by
    rw [List.length_append, data_uint]
    have := List.length_pos.mpr (natToChars_ne_nil n)
    simp only [List.length_cons, List.length_nil]
    omega
  have hdrop : (("uint").data ++ natToChars n).drop 4 = natToChars n := rfl
  unfold SolidityType.parse_simple_type simple_step_uint
  rw [if_neg hbool, if_pos (isPrefixOf_append_self (("uint").data) (natToChars n)),
    if_pos hlen, hdrop, parseUsize_natToChars hle]
  simp [hn]

/-- `parse_simple_type` on the canonical rendering of `int<n>`. -/
theorem parse_simple_int_ok {n : Nat} (hn : check_type_int_range n = true) :
    SolidityType.parse_simple_type (("int").data ++ natToChars n) =
      .ok (.Primitive (.Int n)) := by
  have hle : n ≤ USIZE_MAX := le_usize_of_le_256 (check_type_int_range_spec hn).2.1
  have hbool : ("int").data ++ natToChars n ≠ ("bool").data := by
    rw [data_int, data_bool]; exact cons_ne_cons_of_head (by decide)
  have hlen : 3 < (("int").data ++ natToChars n).length := by
    rw [List.length_append, data_int]
    have := List.length_pos.mpr (natToChars_ne_nil n)
    simp only [List.length_cons, List.length_nil]
    omega
  have hdrop : (("int").data ++ natToChars n).drop 3 = natToChars n := rfl
  unfold SolidityType.parse_simple_type
  rw [if_neg hbool, simple_step_uint_skip (by
    rw [data_uint, data_int]; exact isPrefixOf_false_of_head_ne (by decide))]
  unfold simple_step_int
  rw [if_pos (isPrefixOf_append_self (("int").data) (natToChars n)),
    if_pos hlen, hdrop, parseUsize_natToChars hle]
  simp [hn]

/-- `parse_simple_type` on the canonical rendering of `bytes<n>`. -/
theorem parse_simple_bytesN_ok {n : Nat} (hn : check_static_bytes_range n = true) :
    SolidityType.parse_simple_type (("bytes").data ++ natToChars n) =
      .ok (.BytesStatic n) := by
  have hle : n ≤ USIZE_MAX :=
    le_usize_of_le_256 (by have := (check_static_bytes_range_spec hn).2; omega)
  have hbool : ("bytes").data ++ natToChars n ≠ ("bool").data := by
    rw [data_bytes, data_bool]
    intro he; injection he with _ he'; injection he' with h2 _
    exact absurd h2 (by decide)
  have hlen : 5 < (("bytes").data ++ natToChars n).length := by
    rw [List.length_append, data_bytes]
    have := List.length_pos.mpr (natToChars_ne_nil n)
    simp only [List.length_cons, List.length_nil]
    omega
  have hdrop : (("bytes").data ++ natToChars n).drop 5 = natToChars n := rfl
  unfold SolidityType.parse_simple_type
  rw [if_neg hbool,
    simple_step_uint_skip (by
      rw [data_uint, data_bytes]; exact isPrefixOf_false_of_head_ne (by decide)),
    simple_step_int_skip (by
      rw [data_int, data_bytes]; exact isPrefixOf_false_of_head_ne (by decide)),
    simple_step_address_skip (by
      rw [data_address, data_bytes]; exact isPrefixOf_false_of_head_ne (by decide)),
    simple_step_fixed_skip (by
      rw [data_fixed, data_bytes]; exact isPrefixOf_false_of_head_ne (by decide)),
    simple_step_ufixed_skip (by
      rw [data_ufixed, data_bytes]; exact isPrefixOf_false_of_head_ne (by decide))]
  unfold simple_step_bytes
  rw [if_pos (isPrefixOf_append_self (("bytes").data) (natToChars n)),
    if_pos hlen, hdrop, parseUsize_natToChars hle]
  simp [hn]

/-- The `<m>x<n>` suffix of a fixed-point rendering: position of the
final `x`. -/
theorem rfindIdx_fixed_suffix (m n : Nat) :
    rfindIdx (natToChars m ++ 'x' :: natToChars n) 'x' =
      some (natToChars m).length := by
  have hx : rfindIdx ('x' :: natToChars n) 'x' = some 0 := by
    rw [rfindIdx,
      rfindIdx_eq_none (not_mem_of_all_digit (natToChars_all_digit n) (by decide)),
      if_pos rfl]
  have := rfindIdx_append_right (a := natToChars m) hx
  simpa using this

/-- `parse_simple_type` on the canonical rendering of `fixed<m>x<n>`. -/
theorem parse_simple_fixed_ok {m n : Nat} (hm : check_type_int_range m = true)
    (hn : check_fixed_n_range n = true) :
    SolidityType.parse_simple_type
        (("fixed").data ++ (natToChars m ++ 'x' :: natToChars n)) =
      .ok (.Primitive (.Fixed m n)) := by
  have hmle : m ≤ USIZE_MAX := le_usize_of_le_256 (check_type_int_range_spec hm).2.1
  have h80 : n ≤ 80 := by
    have hc := hn
    unfold check_fixed_n_range at hc
    exact of_decide_eq_true hc
  have hnle : n ≤ USIZE_MAX := le_usize_of_le_256 (show n ≤ 256 by omega)
  have hbool : ("fixed").data ++ (natToChars m ++ 'x' :: natToChars n) ≠
      ("bool").data := by
    rw [data_fixed, data_bool]; exact cons_ne_cons_of_head (by decide)
  have hlen : 5 < (("fixed").data ++ (natToChars m ++ 'x' :: natToChars n)).length := by
    rw [data_fixed]
    simp only [List.length_append, List.length_cons, List.length_nil]
    omega
  have hdrop : (("fixed").data ++ (natToChars m ++ 'x' :: natToChars n)).drop 5 =
      natToChars m ++ 'x' :: natToChars n := rfl
  have hTake : parseUsize
      ((natToChars m ++ 'x' :: natToChars n).take (natToChars m).length) = some m := by
    rw [List.take_left, parseUsize_natToChars hmle]
  have hDrop : parseUsize
      ((natToChars m ++ 'x' :: natToChars n).drop ((natToChars m).length + 1)) =
        some n := by
    have hassoc : natToChars m ++ 'x' :: natToChars n =
        (natToChars m ++ ['x']) ++ natToChars n := by simp
    have hlen' : (natToChars m ++ ['x']).length = (natToChars m).length + 1 := by
      simp
    rw [hassoc, ← hlen', List.drop_left]
    exact parseUsize_natToChars hnle
  unfold SolidityType.parse_simple_type
  rw [if_neg hbool,
    simple_step_uint_skip (by
      rw [data_uint, data_fixed]; exact isPrefixOf_false_of_head_ne (by decide)),
    simple_step_int_skip (by
      rw [data_int, data_fixed]; exact isPrefixOf_false_of_head_ne (by decide)),
    simple_step_address_skip (by
      rw [data_address, data_fixed]; exact isPrefixOf_false_of_head_ne (by decide))]
  unfold simple_step_fixed
  rw [if_pos (isPrefixOf_append_self (("fixed").data) _), if_pos hlen, hdrop]
  simp [rfindIdx_fixed_suffix, hTake, hDrop, hm, hn,
    parseUsize_natToChars hmle, parseUsize_natToChars hnle]

/-- `parse_simple_type` on the canonical rendering of `ufixed<m>x<n>`. -/
theorem parse_simple_ufixed_ok {m n : Nat} (hm : check_type_int_range m = true)
    (hn : check_fixed_n_range n = true) :
    SolidityType.parse_simple_type
        (("ufixed").data ++ (natToChars m ++ 'x' :: natToChars n)) =
      .ok (.Primitive (.Ufixed m n)) := by
  have hmle : m ≤ USIZE_MAX := le_usize_of_le_256 (check_type_int_range_spec hm).2.1
  have h80 : n ≤ 80 := by
    have hc := hn
    unfold check_fixed_n_range at hc
    exact of_decide_eq_true hc
  have hnle : n ≤ USIZE_MAX := le_usize_of_le_256 (show n ≤ 256 by omega)
  have hbool : ("ufixed").data ++ (natToChars m ++ 'x' :: natToChars n) ≠
      ("bool").data := by
    rw [data_ufixed, data_bool]; exact cons_ne_cons_of_head (by decide)
  have hlen : 6 < (("ufixed").data ++ (natToChars m ++ 'x' :: natToChars n)).length := by
    rw [data_ufixed]
    simp only [List.length_append, List.length_cons, List.length_nil]
    omega
  have hdrop : (("ufixed").data ++ (natToChars m ++ 'x' :: natToChars n)).drop 6 =
      natToChars m ++ 'x' :: natToChars n := rfl
  have hTake : parseUsize
      ((natToChars m ++ 'x' :: natToChars n).take (natToChars m).length) = some m := by
    rw [List.take_left, parseUsize_natToChars hmle]
  have hDrop : parseUsize
      ((natToChars m ++ 'x' :: natToChars n).drop ((natToChars m).length + 1)) =
        some n := by
    have hassoc : natToChars m ++ 'x' :: natToChars n =
        (natToChars m ++ ['x']) ++ natToChars n := by simp
    have hlen' : (natToChars m ++ ['x']).length = (natToChars m).length + 1 := by
      simp
    rw [hassoc, ← hlen', List.drop_left]
    exact parseUsize_natToChars hnle
  unfold SolidityType.parse_simple_type
  rw [if_neg hbool,
    simple_step_uint_skip (by
      rw [data_uint, data_ufixed]; exact isPrefixOf_false_second (by decide)),
    simple_step_int_skip (by
      rw [data_int, data_ufixed]; exact isPrefixOf_false_of_head_ne (by decide)),
    simple_step_address_skip (by
      rw [data_address, data_ufixed]; exact isPrefixOf_false_of_head_ne (by decide)),
    simple_step_fixed_skip (by
      rw [data_fixed, data_ufixed]; exact isPrefixOf_false_of_head_ne (by decide))]
  unfold simple_step_ufixed
  rw [if_pos (isPrefixOf_append_self (("ufixed").data) _), if_pos hlen, hdrop]
  simp [rfindIdx_fixed_suffix, hTake, hDrop, hm, hn,
    parseUsize_natToChars hmle, parseUsize_natToChars hnle]

/-- `parse_simple_type` on `uint<n>` with an in-range number but a failed
width check: the `uint` block falls through and every later block
rejects, ending in the simple-type error. -/
theorem parse_simple_uint_bad {n : Nat} (h : check_type_int_range n = false)
    (hle : n ≤ USIZE_MAX) :
    SolidityType.parse_simple_type (("uint").data ++ natToChars n) =
      .error PARSE_ERR_MSG_SIMPLE_TYPE := by
  have hbool : ("uint").data ++ natToChars n ≠ ("bool").data := by
    rw [data_uint, data_bool]; exact cons_ne_cons_of_head (by decide)
  have hlen : 4 < (("uint").data ++ natToChars n).length := by
    rw [List.length_append, data_uint]
    have := List.length_pos.mpr (natToChars_ne_nil n)
    simp only [List.length_cons, List.length_nil]
    omega
  have hdrop : (("uint").data ++ natToChars n).drop 4 = natToChars n := rfl
  have h1 : simple_step_int (("uint").data ++ natToChars n) =
      simple_step_address (("uint").data ++ natToChars n) :=
    simple_step_int_skip (by
      rw [data_int, data_uint]; exact isPrefixOf_false_of_head_ne (by decide))
  have h2 : simple_step_address (("uint").data ++ natToChars n) =
      simple_step_fixed (("uint").data ++ natToChars n) :=
    simple_step_address_skip (by
      rw [data_address, data_uint]; exact isPrefixOf_false_of_head_ne (by decide))
  have h3 : simple_step_fixed (("uint").data ++ natToChars n) =
      simple_step_ufixed (("uint").data ++ natToChars n) :=
    simple_step_fixed_skip (by
      rw [data_fixed, data_uint]; exact isPrefixOf_false_of_head_ne (by decide))
  have h4 : simple_step_ufixed (("uint").data ++ natToChars n) =
      simple_step_bytes (("uint").data ++ natToChars n) :=
    simple_step_ufixed_skip (by
      rw [data_ufixed, data_uint]; exact isPrefixOf_false_second (by decide))
  have h5 : simple_step_bytes (("uint").data ++ natToChars n) =
      simple_step_string (("uint").data ++ natToChars n) :=
    simple_step_bytes_skip (by
      rw [data_bytes, data_uint]; exact isPrefixOf_false_of_head_ne (by decide))
  have h6 : simple_step_string (("uint").data ++ natToChars n) =
      .error PARSE_ERR_MSG_SIMPLE_TYPE := by
    unfold simple_step_string
    rw [if_neg (by
      rw [data_string, data_uint]; exact cons_ne_cons_of_head (by decide))]
  unfold SolidityType.parse_simple_type simple_step_uint
  rw [if_neg hbool, if_pos (isPrefixOf_append_self (("uint").data) (natToChars n)),
    if_pos hlen, hdrop, parseUsize_natToChars hle]
  simp only [h, Bool.false_eq_true, if_false, h1, h2, h3, h4, h5, h6]

/-- `parse_simple_type` on `uint<n>` with a number overflowing `usize`:
the inner `parse::<usize>` fails and the error propagates through `?`. -/
theorem parse_simple_uint_overflow {n : Nat} (h : USIZE_MAX < n) :
    SolidityType.parse_simple_type (("uint").data ++ natToChars n) =
      .error PARSE_ERR_MSG := by
  have hbool : ("uint").data ++ natToChars n ≠ ("bool").data := by
    rw [data_uint, data_bool]; exact cons_ne_cons_of_head (by decide)
  have hlen : 4 < (("uint").data ++ natToChars n).length := by
    rw [List.length_append, data_uint]
    have := List.length_pos.mpr (natToChars_ne_nil n)
    simp only [List.length_cons, List.length_nil]
    omega
  have hdrop : (("uint").data ++ natToChars n).drop 4 = natToChars n := rfl
  unfold SolidityType.parse_simple_type simple_step_uint
  rw [if_neg hbool, if_pos (isPrefixOf_append_self (("uint").data) (natToChars n)),
    if_pos hlen, hdrop, parseUsize_overflow h]

/-! ## Lemmas: membership helpers and digit-string classifications -/

theorem forall_mem_cons_bool {p : Char → Bool} {a : Char} {l : List Char}
    {v : Bool} (ha : p a = v) (hl : ∀ c ∈ l, p c = v) :
    ∀ c ∈ a :: l, p c = v := by
  intro c hc
  rcases List.mem_cons.mp hc with h | h
  · subst h; exact ha
  · exact hl c h

theorem not_mem_append_chars {c : Char} {a b : List Char} (ha : c ∉ a)
    (hb : c ∉ b) : c ∉ a ++ b := by
  intro h
  rcases List.mem_append.mp h with h | h
  exacts [ha h, hb h]

theorem not_mem_cons_chars {c a : Char} {l : List Char} (hne : c ≠ a)
    (hl : c ∉ l) : c ∉ a :: l := by
  intro h
  rcases List.mem_cons.mp h with h | h
  exacts [hne h, hl h]

theorem natToChars_no_ws (n : Nat) : ∀ c ∈ natToChars n, isWs c = false :=
  fun c hc => isDigit_not_ws (natToChars_all_digit n c hc)

theorem natToChars_not_mem {c : Char} (hc : c.isDigit = false) (n : Nat) :
    c ∉ natToChars n :=
  not_mem_of_all_digit (natToChars_all_digit n) hc

theorem check_simple_head_intro {s p : List Char}
    (hp : p = ("uint").data ∨ p = ("int").data ∨ p = ("ufixed").data ∨
      p = ("fixed").data ∨ p = ("bool").data ∨ p = ("address").data ∨
      p = ("bytes").data ∨ p = ("string").data)
    (h : p.isPrefixOf s = true) : check_simple_type_head s = true := by
  unfold check_simple_type_head
  rw [List.any_eq_true]
  refine ⟨p, ?_, h⟩
  rcases hp with h | h | h | h | h | h | h | h <;> subst h <;> simp

/-! ## Lemmas: `parse` on whitespace-free simple and array renderings -/

theorem parse_eq_simple {s : List Char} (hws : ∀ c ∈ s, isWs c = false)
    (hbr : ('[' : Char) ∉ s) (hhead : check_simple_type_head s = true) :
    SolidityType.parse s = SolidityType.parse_simple_type s := by
  rw [parse_def, trimChars_of_no_ws hws, contains_eq_false_of_not_mem hbr,
    if_neg Bool.false_ne_true, if_pos hhead]

theorem parse_display_dyn {t : SolidityType}
    (hws : ∀ c ∈ t.display, isWs c = false)
    (hrec : SolidityType.parse t.display = .ok t) :
    SolidityType.parse (t.display ++ ['[', ']']) = .ok (.DynamicArray t) := by
  have hws2 : ∀ c ∈ t.display ++ ['[', ']'], isWs c = false :=
    forall_mem_append_bool hws (by decide)
  have hrf : rfindIdx (t.display ++ ['[', ']']) '[' = some t.display.length := by
    have h0 : rfindIdx ['[', ']'] '[' = some 0 := rfl
    simpa using rfindIdx_append_right (a := t.display) h0
  have hbracket : trimChars ((t.display ++ ['[', ']']).drop t.display.length) =
      ['[', ']'] := by
    rw [List.drop_left]
    decide
  rw [parse_def, trimChars_of_no_ws hws2]
  rw [show ((t.display ++ ['[', ']']).contains '[') = true from
    contains_append_bracket t.display [']'] '[']
  rw [if_pos rfl]
  unfold parse_array_core
  simp only [hrf]
  rw [List.take_left, hrec]
  simp only [hbracket]
  rfl

theorem parse_display_static {t : SolidityType} {k : Nat}
    (hws : ∀ c ∈ t.display, isWs c = false)
    (hrec : SolidityType.parse t.display = .ok t) (hk : k ≤ USIZE_MAX) :
    SolidityType.parse ((SolidityType.StaticArray t k).display) =
      .ok (.StaticArray t k) := by
  have hgroup : (SolidityType.StaticArray t k).display =
      t.display ++ ('[' :: (natToChars k ++ [']'])) := by
    show t.display ++ ('[' :: natToChars k) ++ [']'] = _
    rw [List.append_assoc]
    rfl
  have hwsb : ∀ c ∈ '[' :: (natToChars k ++ [']']), isWs c = false :=
    forall_mem_cons_bool (by decide)
      (forall_mem_append_bool (natToChars_no_ws k) (by decide))
  have hws2 : ∀ c ∈ t.display ++ ('[' :: (natToChars k ++ [']'])), isWs c = false :=
    forall_mem_append_bool hws hwsb
  have hrf : rfindIdx (t.display ++ ('[' :: (natToChars k ++ [']']))) '[' =
      some t.display.length := by
    have h0 : rfindIdx ('[' :: (natToChars k ++ [']'])) '[' = some 0 := by
      rw [rfindIdx, rfindIdx_eq_none
        (not_mem_append_chars (natToChars_not_mem (by decide) k) (by decide)),
        if_pos rfl]
    simpa using rfindIdx_append_right (a := t.display) h0
  have hbracket : trimChars ((t.display ++ ('[' :: (natToChars k ++ [']']))).drop
      t.display.length) = '[' :: (natToChars k ++ [']']) := by
    rw [List.drop_left]
    exact trimChars_of_no_ws hwsb
  have hcond : 2 ≤ ('[' :: (natToChars k ++ [']'])).length ∧
      ('[' :: (natToChars k ++ [']'])).head? = some '[' ∧
      ('[' :: (natToChars k ++ [']'])).getLast? = some ']' := by
    refine ⟨?_, rfl, ?_⟩
    · simp only [List.length_cons, List.length_append, List.length_nil]
      omega
    · show ((('[' :: natToChars k) ++ [']']) : List Char).getLast? = some ']'
      exact List.getLast?_concat _
  have hinner : trimChars ((('[' :: (natToChars k ++ [']'])).drop 1).dropLast) =
      natToChars k := by
    show trimChars ((natToChars k ++ [']']).dropLast) = natToChars k
    rw [List.dropLast_concat]
    exact trimChars_of_no_ws (natToChars_no_ws k)
  rw [hgroup, parse_def, trimChars_of_no_ws hws2]
  rw [show ((t.display ++ ('[' :: (natToChars k ++ [']']))).contains '[') = true from
    contains_append_bracket t.display (natToChars k ++ [']']) '[']
  rw [if_pos rfl]
  unfold parse_array_core
  simp only [hrf]
  rw [List.take_left, hrec]
  simp only [hbracket, hinner]
  rw [if_pos hcond, if_pos (natToChars_ne_nil k), parseUsize_natToChars hk]

/-! ## Lemmas: renderings of constructible types are whitespace-free -/

theorem display_no_ws {T : SolidityType} (h : Constructible T) :
    ∀ c ∈ T.display, isWs c = false := by
  induction h with
  | bool => decide
  | uint n hn =>
    exact forall_mem_append_bool (by decide) (natToChars_no_ws n)
  | int n hn =>
    exact forall_mem_append_bool (by decide) (natToChars_no_ws n)
  | addr b =>
    show ∀ c ∈ ("address").data, isWs c = false
    decide
  | fixed m n hm hn =>
    exact forall_mem_append_bool
      (forall_mem_append_bool (by decide) (natToChars_no_ws m))
      (forall_mem_cons_bool (by decide) (natToChars_no_ws n))
  | ufixed m n hm hn =>
    exact forall_mem_append_bool
      (forall_mem_append_bool (by decide) (natToChars_no_ws m))
      (forall_mem_cons_bool (by decide) (natToChars_no_ws n))
  | bytesStatic n hn =>
    exact forall_mem_append_bool (by decide) (natToChars_no_ws n)
  | bytes => decide
  | string => decide
  | dyn t hc ih =>
    exact forall_mem_append_bool ih (by decide)
  | staticArr t k hc hk ih =>
    exact forall_mem_append_bool
      (forall_mem_append_bool ih
        (forall_mem_cons_bool (by decide) (natToChars_no_ws k)))
      (by decide)

/-! ## Lemmas: the parser round-trips canonical renderings -/

theorem roundtrip_constructible {T : SolidityType} (h : Constructible T) :
    T.no_payable = true → SolidityType.parse T.display = .ok T := by
  induction h with
  | bool => intro _; rfl
  | uint n hn =>
    intro _
    show SolidityType.parse (("uint").data ++ natToChars n) =
      .ok (.Primitive (.Uint n))
    rw [parse_eq_simple
      (forall_mem_append_bool (by decide) (natToChars_no_ws n))
      (not_mem_append_chars (by decide) (natToChars_not_mem (by decide) n))
      (check_simple_head_intro (Or.inl rfl)
        (isPrefixOf_append_self (("uint").data) (natToChars n)))]
    exact parse_simple_uint_ok hn
  | int n hn =>
    intro _
    show SolidityType.parse (("int").data ++ natToChars n) =
      .ok (.Primitive (.Int n))
    rw [parse_eq_simple
      (forall_mem_append_bool (by decide) (natToChars_no_ws n))
      (not_mem_append_chars (by decide) (natToChars_not_mem (by decide) n))
      (check_simple_head_intro (Or.inr (Or.inl rfl))
        (isPrefixOf_append_self (("int").data) (natToChars n)))]
    exact parse_simple_int_ok hn
  | addr b =>
    intro hp
    cases b with
    | false => rfl
    | true => exact absurd hp (by decide)
  | fixed m n hm hn =>
    intro _
    have hgroup : (SolidityType.Primitive (.Fixed m n)).display =
        ("fixed").data ++ (natToChars m ++ 'x' :: natToChars n) := by
      show ("fixed").data ++ natToChars m ++ 'x' :: natToChars n = _
      rw [List.append_assoc]
    rw [hgroup]
    rw [parse_eq_simple
      (forall_mem_append_bool (by decide)
        (forall_mem_append_bool (natToChars_no_ws m)
          (forall_mem_cons_bool (by decide) (natToChars_no_ws n))))
      (not_mem_append_chars (by decide)
        (not_mem_append_chars (natToChars_not_mem (by decide) m)
          (not_mem_cons_chars (by decide) (natToChars_not_mem (by decide) n))))
      (check_simple_head_intro (Or.inr (Or.inr (Or.inr (Or.inl rfl))))
        (isPrefixOf_append_self (("fixed").data) _))]
    exact parse_simple_fixed_ok hm hn
  | ufixed m n hm hn =>
    intro _
    have hgroup : (SolidityType.Primitive (.Ufixed m n)).display =
        ("ufixed").data ++ (natToChars m ++ 'x' :: natToChars n) := by
      show ("ufixed").data ++ natToChars m ++ 'x' :: natToChars n = _
      rw [List.append_assoc]
    rw [hgroup]
    rw [parse_eq_simple
      (forall_mem_append_bool (by decide)
        (forall_mem_append_bool (natToChars_no_ws m)
          (forall_mem_cons_bool (by decide) (natToChars_no_ws n))))
      (not_mem_append_chars (by decide)
        (not_mem_append_chars (natToChars_not_mem (by decide) m)
          (not_mem_cons_chars (by decide) (natToChars_not_mem (by decide) n))))
      (check_simple_head_intro (Or.inr (Or.inr (Or.inl rfl)))
        (isPrefixOf_append_self (("ufixed").data) _))]
    exact parse_simple_ufixed_ok hm hn
  | bytesStatic n hn =>
    intro _
    show SolidityType.parse (("bytes").data ++ natToChars n) =
      .ok (.BytesStatic n)
    rw [parse_eq_simple
      (forall_mem_append_bool (by decide) (natToChars_no_ws n))
      (not_mem_append_chars (by decide) (natToChars_not_mem (by decide) n))
      (check_simple_head_intro
        (Or.inr (Or.inr (Or.inr (Or.inr (Or.inr (Or.inr (Or.inl rfl)))))))
        (isPrefixOf_append_self (("bytes").data) (natToChars n)))]
    exact parse_simple_bytesN_ok hn
  | bytes => intro _; rfl
  | string => intro _; rfl
  | dyn t hc ih =>
    intro hp
    have hp' : t.no_payable = true := by
      have he : (SolidityType.DynamicArray t).no_payable = t.no_payable := rfl
      rw [← he]; exact hp
    exact parse_display_dyn (display_no_ws hc) (ih hp')
  | staticArr t k hc hk ih =>
    intro hp
    have hp' : t.no_payable = true := by
      have he : (SolidityType.StaticArray t k).no_payable = t.no_payable := rfl
      rw [← he]; exact hp
    exact parse_display_static (display_no_ws hc) (ih hp') hk

/-! ## Lemmas: everything the parser accepts is `Constructible` -/

theorem simple_step_string_sound {s : List Char} {T : SolidityType}
    (h : simple_step_string s = .ok T) : Constructible T := by
  unfold simple_step_string at h
  split at h
  · injection h with h'; subst h'; exact .string
  · exact Except.noConfusion h

theorem simple_step_bytes_sound {s : List Char} {T : SolidityType}
    (h : simple_step_bytes s = .ok T) : Constructible T := by
  unfold simple_step_bytes at h
  split at h
  · split at h
    · split at h
      · exact Except.noConfusion h
      next num hnum =>
        split at h
        next hrange => injection h with h'; subst h'; exact .bytesStatic num hrange
        next hrange => exact simple_step_string_sound h
    · injection h with h'; subst h'; exact .bytes
  · exact simple_step_string_sound h

theorem simple_step_ufixed_sound {s : List Char} {T : SolidityType}
    (h : simple_step_ufixed s = .ok T) : Constructible T := by
  unfold simple_step_ufixed at h
  split at h
  · split at h
    · split at h
      · exact Except.noConfusion h
      next x_pos hx =>
        split at h
        · exact Except.noConfusion h
        next num_m hm =>
          split at h
          · exact Except.noConfusion h
          next num_n hn =>
            split at h
            next hranges =>
              rw [Bool.and_eq_true] at hranges
              injection h with h'
              subst h'
              exact .ufixed num_m num_n hranges.1 hranges.2
            next hranges => exact simple_step_bytes_sound h
    · injection h with h'; subst h'; exact .ufixed 128 18 (by decide) (by decide)
  · exact simple_step_bytes_sound h

theorem simple_step_fixed_sound {s : List Char} {T : SolidityType}
    (h : simple_step_fixed s = .ok T) : Constructible T := by
  unfold simple_step_fixed at h
  split at h
  · split at h
    · split at h
      · exact Except.noConfusion h
      next x_pos hx =>
        split at h
        · exact Except.noConfusion h
        next num_m hm =>
          split at h
          · exact Except.noConfusion h
          next num_n hn =>
            split at h
            next hranges =>
              rw [Bool.and_eq_true] at hranges
              injection h with h'
              subst h'
              exact .fixed num_m num_n hranges.1 hranges.2
            next hranges => exact simple_step_ufixed_sound h
    · injection h with h'; subst h'; exact .fixed 128 18 (by decide) (by decide)
  · exact simple_step_ufixed_sound h

theorem simple_step_address_sound {s : List Char} {T : SolidityType}
    (h : simple_step_address s = .ok T) : Constructible T := by
  unfold simple_step_address at h
  split at h
  · split at h
    · split at h
      · injection h with h'; subst h'; exact .addr true
      · exact simple_step_fixed_sound h
    · split at h
      · injection h with h'; subst h'; exact .addr false
      · exact simple_step_fixed_sound h
  · exact simple_step_fixed_sound h

theorem simple_step_int_sound {s : List Char} {T : SolidityType}
    (h : simple_step_int s = .ok T) : Constructible T := by
  unfold simple_step_int at h
  split at h
  · split at h
    · split at h
      · exact Except.noConfusion h
      next num hnum =>
        split at h
        next hrange => injection h with h'; subst h'; exact .int num hrange
        next hrange => exact simple_step_address_sound h
    · injection h with h'; subst h'; exact .int 256 (by decide)
  · exact simple_step_address_sound h

theorem simple_step_uint_sound {s : List Char} {T : SolidityType}
    (h : simple_step_uint s = .ok T) : Constructible T := by
  unfold simple_step_uint at h
  split at h
  · split at h
    · split at h
      · exact Except.noConfusion h
      next num hnum =>
        split at h
        next hrange => injection h with h'; subst h'; exact .uint num hrange
        next hrange => exact simple_step_int_sound h
    · injection h with h'; subst h'; exact .uint 256 (by decide)
  · exact simple_step_int_sound h

theorem parse_simple_sound {s : List Char} {T : SolidityType}
    (h : SolidityType.parse_simple_type s = .ok T) : Constructible T := by
  unfold SolidityType.parse_simple_type at h
  split at h
  · injection h with h'; subst h'; exact .bool
  · exact simple_step_uint_sound h

theorem parse_sound_aux (N : Nat) : ∀ {s : List Char} {T : SolidityType},
    s.length ≤ N → SolidityType.parse s = .ok T → Constructible T := by
  induction N using Nat.strong_induction_on with
  | _ N ih =>
    intro s T hlen h
    rw [parse_def] at h
    by_cases hc : (trimChars s).contains '[' = true
    · rw [if_pos hc] at h
      have hne : trimChars s ≠ [] := by
        intro he; rw [he] at hc; exact Bool.noConfusion hc
      have hpos : 1 ≤ (trimChars s).length := List.length_pos.mpr hne
      have htlen : (trimChars s).length ≤ s.length := trimChars_length_le s
      unfold parse_array_core at h
      split at h
      · exact Except.noConfusion h
      next last_pos hrf =>
        have hlt : last_pos < (trimChars s).length := rfindIdx_lt_length hrf
        split at h
        · exact Except.noConfusion h
        next out_type hout =>
          have hcout : Constructible out_type := by
            refine ih (N - 1) (by omega) ?_ hout
            rw [List.length_take]
            omega
          split at h
          · split at h
            · split at h
              · exact Except.noConfusion h
              next n hn =>
                injection h with h'; subst h'
                exact .staticArr _ _ hcout (parseUsize_le hn)
            · injection h with h'; subst h'
              exact .dyn _ hcout
          · exact Except.noConfusion h
    · rw [if_neg hc] at h
      by_cases hh : check_simple_type_head (trimChars s) = true
      · rw [if_pos hh] at h
        exact parse_simple_sound h
      · rw [if_neg hh] at h
        split at h <;> exact Except.noConfusion h

/-- Everything `SolidityType::parse` accepts is in the `Constructible`
image. -/
theorem parse_sound {s : List Char} {T : SolidityType}
    (h : SolidityType.parse s = .ok T) : Constructible T :=
  parse_sound_aux s.length le_rfl h

/-! ## Lemmas: layout calculator -/

theorem le_roundup32 (s : Nat) : s ≤ ((s + 31) / 32) * 32 := by
  have h1 := Nat.div_add_mod (s + 31) 32
  have h2 : (s + 31) % 32 < 32 := Nat.mod_lt _ (by omega)
  omega

mutual

/-- Padded head sizes are always multiples of 32. -/
theorem abi_mod32 (t : SolidityType) : t.abi_head_size true % 32 = 0 := by
  cases t with
  | Primitive p =>
    cases p <;> rw [SolidityType.abi_head_size] <;>
      simp [SolidityType.is_static]
  | Tuple tys =>
    rw [SolidityType.abi_head_size]
    split
    · exact abi_mod32_list tys
    · simp
  | StaticArray ty n =>
    rw [SolidityType.abi_head_size]
    split
    · exact Nat.mul_mod_left _ _
    · simp
  | DynamicArray ty =>
    have hs : (SolidityType.DynamicArray ty).is_static = false := by
      simp [SolidityType.is_static]
    rw [SolidityType.abi_head_size, hs, if_neg Bool.false_ne_true]
    all_goals intros
    all_goals rename_i h
    all_goals exact SolidityType.noConfusion h
  | SolidityString =>
    have hs : (SolidityType.SolidityString).is_static = false := by
      simp [SolidityType.is_static]
    rw [SolidityType.abi_head_size, hs, if_neg Bool.false_ne_true]
    all_goals intros
    all_goals rename_i h
    all_goals exact SolidityType.noConfusion h
  | Bytes =>
    have hs : (SolidityType.Bytes).is_static = false := by
      simp [SolidityType.is_static]
    rw [SolidityType.abi_head_size, hs, if_neg Bool.false_ne_true]
    all_goals intros
    all_goals rename_i h
    all_goals exact SolidityType.noConfusion h
  | BytesStatic n =>
    have hs : (SolidityType.BytesStatic n).is_static = true := by
      simp [SolidityType.is_static]
    rw [SolidityType.abi_head_size, hs, if_pos rfl]
    simp

theorem abi_mod32_list (l : List SolidityType) :
    abi_head_sizes_sum l true % 32 = 0 := by
  match l with
  | [] => rfl
  | t :: ts =>
    unfold abi_head_sizes_sum
    have h1 := abi_mod32 t
    have h2 := abi_mod32_list ts
    omega

end

mutual

/-- Under the data-model width bounds, the unpadded head size never
exceeds the padded one. -/
theorem abi_mono (t : SolidityType) :
    t.head_within_word = true →
      t.abi_head_size false ≤ t.abi_head_size true := by
  cases t with
  | Primitive p =>
    cases p with
    | Bool =>
      intro _
      rw [SolidityType.abi_head_size, SolidityType.abi_head_size]
      split
      · decide
      · simp
    | Uint n =>
      intro hb
      have hn : n ≤ 256 := by
        simpa [SolidityType.head_within_word] using hb
      rw [SolidityType.abi_head_size, SolidityType.abi_head_size]
      split
      · simp
        omega
      · simp
    | Int n =>
      intro hb
      have hn : n ≤ 256 := by
        simpa [SolidityType.head_within_word] using hb
      rw [SolidityType.abi_head_size, SolidityType.abi_head_size]
      split
      · simp
        omega
      · simp
    | Fixed m n =>
      intro hb
      have hm : m ≤ 256 := by
        simpa [SolidityType.head_within_word] using hb
      rw [SolidityType.abi_head_size, SolidityType.abi_head_size]
      split
      · simp
        omega
      · simp
    | Ufixed m n =>
      intro hb
      have hm : m ≤ 256 := by
        simpa [SolidityType.head_within_word] using hb
      rw [SolidityType.abi_head_size, SolidityType.abi_head_size]
      split
      · simp
        omega
      · simp
    | Address b =>
      intro _
      rw [SolidityType.abi_head_size, SolidityType.abi_head_size]
      split
      · decide
      · simp
  | Tuple tys =>
    intro hb
    have hb' : SolidityType.head_within_word_all tys = true := by
      simpa [SolidityType.head_within_word] using hb
    rw [SolidityType.abi_head_size, SolidityType.abi_head_size]
    split
    · exact abi_mono_list tys hb'
    · exact Nat.le_refl 32
  | StaticArray ty n =>
    intro hb
    have hb' : ty.head_within_word = true := by
      simpa [SolidityType.head_within_word] using hb
    rw [SolidityType.abi_head_size, SolidityType.abi_head_size]
    split
    · have h1 : ty.abi_head_size false ≤ ty.abi_head_size true :=
        abi_mono ty hb'
      exact Nat.le_trans (Nat.mul_le_mul_right n h1) (le_roundup32 _)
    · exact Nat.le_refl 32
  | DynamicArray ty =>
    intro _
    have hs : (SolidityType.DynamicArray ty).is_static = false := by
      simp [SolidityType.is_static]
    rw [SolidityType.abi_head_size, SolidityType.abi_head_size, hs,
      if_neg Bool.false_ne_true]
    all_goals first
      | exact Nat.le_refl 32
      | (intros; rename_i h; exact SolidityType.noConfusion h)
  | SolidityString =>
    intro _
    have hs : (SolidityType.SolidityString).is_static = false := by
      simp [SolidityType.is_static]
    rw [SolidityType.abi_head_size, SolidityType.abi_head_size, hs,
      if_neg Bool.false_ne_true]
    all_goals first
      | exact Nat.le_refl 32
      | (intros; rename_i h; exact SolidityType.noConfusion h)
  | Bytes =>
    intro _
    have hs : (SolidityType.Bytes).is_static = false := by
      simp [SolidityType.is_static]
    rw [SolidityType.abi_head_size, SolidityType.abi_head_size, hs,
      if_neg Bool.false_ne_true]
    all_goals first
      | exact Nat.le_refl 32
      | (intros; rename_i h; exact SolidityType.noConfusion h)
  | BytesStatic n =>
    intro hb
    have hn : n ≤ 4 := by
      simpa [SolidityType.head_within_word] using hb
    rw [SolidityType.abi_head_size, SolidityType.abi_head_size]
    split
    · simp
      omega
    · simp

theorem abi_mono_list (l : List SolidityType) :
    SolidityType.head_within_word_all l = true →
      abi_head_sizes_sum l false ≤ abi_head_sizes_sum l true := by
  match l with
  | [] => intro _; exact Nat.le_refl 0
  | t :: ts =>
    intro hb
    rw [SolidityType.head_within_word_all, Bool.and_eq_true] at hb
    unfold abi_head_sizes_sum
    exact Nat.add_le_add (abi_mono t hb.1) (abi_mono_list ts hb.2)

end

/-! ## Lemmas: the payable flag is invisible to `Display` -/

theorem erase_payable_all_eq_map (l : List SolidityType) :
    SolidityType.erase_payable_all l = l.map SolidityType.erase_payable := by
  induction l with
  | nil => rfl
  | cons t ts ih => rw [SolidityType.erase_payable_all, ih, List.map_cons]

mutual

theorem display_erase (t : SolidityType) :
    (t.erase_payable).display = t.display := by
  cases t with
  | Primitive p => cases p <;> rfl
  | Tuple tys =>
    show '(' :: SolidityType.displayList (SolidityType.erase_payable_all tys)
        ++ [')'] = '(' :: SolidityType.displayList tys ++ [')']
    rw [display_erase_list tys]
  | DynamicArray ty =>
    show (ty.erase_payable).display ++ ['[', ']'] = ty.display ++ ['[', ']']
    rw [display_erase ty]
  | StaticArray ty n =>
    show (ty.erase_payable).display ++ '[' :: natToChars n ++ [']'] =
      ty.display ++ '[' :: natToChars n ++ [']']
    rw [display_erase ty]
  | SolidityString => rfl
  | Bytes => rfl
  | BytesStatic n => rfl

theorem display_erase_list (l : List SolidityType) :
    SolidityType.displayList (SolidityType.erase_payable_all l) =
      SolidityType.displayList l := by
  match l with
  | [] => rfl
  | [t] =>
    show (t.erase_payable).display = t.display
    exact display_erase t
  | t1 :: t2 :: ts =>
    show (t1.erase_payable).display ++
        ',' :: SolidityType.displayList (SolidityType.erase_payable_all (t2 :: ts)) =
      t1.display ++ ',' :: SolidityType.displayList (t2 :: ts)
    rw [display_erase t1, display_erase_list (t2 :: ts)]

end

theorem displayList_map_erase (l : List SolidityType) :
    SolidityType.displayList (l.map SolidityType.erase_payable) =
      SolidityType.displayList l := by
  rw [← erase_payable_all_eq_map]
  exact display_erase_list l

/-! ## Lemmas: parameter extraction with a data-location suffix -/

theorem extract_memory_suffix {ts : List Char} {T : SolidityType}
    (hcomma : (',' : Char) ∉ ts)
    (hhead : ∀ c, ts.head? = some c → isWs c = false)
    (hts : SolidityType.parse ts = .ok T) :
    extract_para_type_str (ts ++ (" memory").data) =
      (if T.is_value_type then .error DATA_LOCATION_MSG
       else .ok [(T, .Memory)]) := by
  obtain ⟨c0, ts', rfl⟩ : ∃ c0 ts', ts = c0 :: ts' := by
    cases ts with
    | nil =>
      have h0 : SolidityType.parse ([] : List Char) =
        .error ILLEGAL_TYPE_NAME_MSG := rfl
      rw [h0] at hts
      exact Except.noConfusion hts
    | cons a l => exact ⟨a, l, rfl⟩
  have hlast : ((c0 :: ts') ++ (" memory").data).getLast? = some 'y' := by
    have he : (c0 :: ts') ++ (" memory").data =
        ((c0 :: ts') ++ (" memor").data) ++ ['y'] := by simp
    rw [he]
    exact List.getLast?_concat _
  have hhead2 : ∀ c, ((c0 :: ts') ++ (" memory").data).head? = some c →
      isWs c = false := by
    intro c hc
    rw [List.cons_append, List.head?_cons, Option.some.injEq] at hc
    subst hc
    exact hhead c0 rfl
  have htrim : trimChars ((c0 :: ts') ++ (" memory").data) =
      (c0 :: ts') ++ (" memory").data :=
    trimChars_eq_self hhead2 (fun c hc => by
      rw [hlast, Option.some.injEq] at hc
      subst hc
      decide)
  have hne2 : ¬ ((c0 :: ts') ++ (" memory").data = []) := by simp
  have hstrip : stripSuffixChars (("memory").data)
      ((c0 :: ts') ++ (" memory").data) = some ((c0 :: ts') ++ [' ']) := by
    have he : (c0 :: ts') ++ (" memory").data =
        ((c0 :: ts') ++ [' ']) ++ ("memory").data := by simp
    rw [he, stripSuffixChars_append]
  have hparse : SolidityType.parse ((c0 :: ts') ++ [' ']) = .ok T := by
    rw [parse_append_space]
    exact hts
  have hsplit : splitChar ',' ((c0 :: ts') ++ (" memory").data) =
      [(c0 :: ts') ++ (" memory").data] :=
    splitChar_no_sep (not_mem_append_chars hcomma (by decide))
  unfold extract_para_type_str
  rw [htrim, if_neg hne2, hsplit]
  unfold extract_para_loop
  rw [htrim, if_neg hne2]
  simp only [hstrip, hparse]
  by_cases hv : T.is_value_type = true
  · rw [if_pos hv, if_pos hv]
  · rw [if_neg hv, if_neg hv]
    rfl

theorem extract_calldata_suffix {ts : List Char}
    (hne : ts ≠ []) (hcomma : (',' : Char) ∉ ts)
    (hhead : ∀ c, ts.head? = some c → isWs c = false) :
    extract_para_type_str (ts ++ (" calldata").data) =
      .error CALLDATA_UNSUPPORTED_MSG := by
  obtain ⟨c0, ts', rfl⟩ : ∃ c0 ts', ts = c0 :: ts' := by
    cases ts with
    | nil => exact absurd rfl hne
    | cons a l => exact ⟨a, l, rfl⟩
  have hlast : ((c0 :: ts') ++ (" calldata").data).getLast? = some 'a' := by
    have he : (c0 :: ts') ++ (" calldata").data =
        ((c0 :: ts') ++ (" calldat").data) ++ ['a'] := by simp
    rw [he]
    exact List.getLast?_concat _
  have hhead2 : ∀ c, ((c0 :: ts') ++ (" calldata").data).head? = some c →
      isWs c = false := by
    intro c hc
    rw [List.cons_append, List.head?_cons, Option.some.injEq] at hc
    subst hc
    exact hhead c0 rfl
  have htrim : trimChars ((c0 :: ts') ++ (" calldata").data) =
      (c0 :: ts') ++ (" calldata").data :=
    trimChars_eq_self hhead2 (fun c hc => by
      rw [hlast, Option.some.injEq] at hc
      subst hc
      decide)
  have hne2 : ¬ ((c0 :: ts') ++ (" calldata").data = []) := by simp
  have hsuf : (("memory").data).isSuffixOf
      ((c0 :: ts') ++ (" calldata").data) = false := by
    unfold List.isSuffixOf
    rw [List.reverse_append]
    have hrev : ((" calldata").data).reverse =
        'a' :: 't' :: 'a' :: 'd' :: 'l' :: 'l' :: 'a' :: 'c' :: [' '] := rfl
    rw [hrev]
    exact isPrefixOf_false_of_head_ne (by decide)
  have hsm : stripSuffixChars (("memory").data)
      ((c0 :: ts') ++ (" calldata").data) = none := by
    unfold stripSuffixChars
    rw [hsuf, if_neg Bool.false_ne_true]
  have hcall : (("calldata").data).isSuffixOf
      ((c0 :: ts') ++ (" calldata").data) = true := by
    have he : (c0 :: ts') ++ (" calldata").data =
        ((c0 :: ts') ++ [' ']) ++ ("calldata").data := by simp
    rw [he]
    exact isSuffixOf_append_self _ _
  have hsplit : splitChar ',' ((c0 :: ts') ++ (" calldata").data) =
      [(c0 :: ts') ++ (" calldata").data] :=
    splitChar_no_sep (not_mem_append_chars hcomma (by decide))
  unfold extract_para_type_str
  rw [htrim, if_neg hne2, hsplit]
  unfold extract_para_loop
  rw [htrim, if_neg hne2]
  simp only [hsm, hcall, if_pos]

/-! ## Lemmas: `parse` on `uint` followed by an arbitrary number -/

theorem parse_uint_str (n : Nat) :
    SolidityType.parse (("uint").data ++ natToChars n) =
      (if check_type_int_range n then .ok (.Primitive (.Uint n))
       else if n ≤ USIZE_MAX then .error PARSE_ERR_MSG_SIMPLE_TYPE
       else .error PARSE_ERR_MSG) := by
  rw [parse_eq_simple
    (forall_mem_append_bool (by decide) (natToChars_no_ws n))
    (not_mem_append_chars (by decide) (natToChars_not_mem (by decide) n))
    (check_simple_head_intro (Or.inl rfl)
      (isPrefixOf_append_self (("uint").data) (natToChars n)))]
  by_cases hr : check_type_int_range n = true
  · rw [if_pos hr]
    exact parse_simple_uint_ok hr
  · have hr' : check_type_int_range n = false := by
      cases hcheck : check_type_int_range n
      · rfl
      · exact absurd hcheck hr
    rw [if_neg hr]
    by_cases hle : n ≤ USIZE_MAX
    · rw [if_pos hle]
      exact parse_simple_uint_bad hr' hle
    · rw [if_neg hle]
      exact parse_simple_uint_overflow (by omega)

/-! ## The verified claims -/

/-- Claim C1, counterexample: `bytes5` is static, its padded head size is
32 but its unpadded head size is `5 * 8 = 40`, so
`abi_head_size(T, true) ≥ abi_head_size(T, false)` fails for the static
type `BytesStatic 5`. -/
theorem claim_C1_counterexample :
    (SolidityType.BytesStatic 5).is_static = true ∧
    (SolidityType.BytesStatic 5).abi_head_size true = 32 ∧
    (SolidityType.BytesStatic 5).abi_head_size false = 40 ∧
    ¬ ((SolidityType.BytesStatic 5).abi_head_size false ≤
        (SolidityType.BytesStatic 5).abi_head_size true) := by
  refine ⟨rfl, rfl, rfl, ?_⟩
  rw [show (SolidityType.BytesStatic 5).abi_head_size false = 40 from rfl,
    show (SolidityType.BytesStatic 5).abi_head_size true = 32 from rfl]
  omega

/-- Claim C1 (amended): for every static `SolidityType` the padded head
size is a multiple of 32; the monotonicity
`abi_head_size(T, true) ≥ abi_head_size(T, false)` holds under the
data-model width bounds provided every `BytesStatic n` in `T` has
`n ≤ 4` — it fails for `BytesStatic n` with `5 ≤ n ≤ 32`, whose unpadded
head size is `n * 8`. -/
theorem claim_C1 (T : SolidityType) :
    (T.is_static = true → T.abi_head_size true % 32 = 0) ∧
    (T.head_within_word = true →
      T.abi_head_size false ≤ T.abi_head_size true) :=
  ⟨fun _ => abi_mod32 T, abi_mono T⟩

theorem claim_C1_witness :
    (SolidityType.BytesStatic 4).abi_head_size true % 32 = 0 ∧
    (SolidityType.BytesStatic 4).abi_head_size false ≤
      (SolidityType.BytesStatic 4).abi_head_size true :=
  ⟨(claim_C1 (SolidityType.BytesStatic 4)).1 rfl,
   (claim_C1 (SolidityType.BytesStatic 4)).2 (by decide)⟩

/-- Claim C2, evaluated at the failing input: the string parser accepts
`bytes5`, producing `BytesStatic 5`, whose unpadded head size is 40 — so
`abi_head_size(T, false) ≤ 32` fails for a parser-constructible type and
the `assert!(size <= 32)` of `max_value` fires (embedded as `none`). -/
theorem claim_C2 :
    SolidityType.parse (("bytes5").data) = .ok (.BytesStatic 5) ∧
    (SolidityType.BytesStatic 5).abi_head_size false = 40 ∧
    (SolidityType.BytesStatic 5).max_value = none :=
  ⟨rfl, rfl, rfl⟩

/-- Claim C3, counterexample: `address payable` parses to the payable
address type, whose canonical rendering is plain `address`, which parses
back to the non-payable address type — so `parse(format(T)) = T` fails
for the parser-constructible type `Address(true)`. -/
theorem claim_C3_counterexample :
    SolidityType.parse (("address payable").data) =
      .ok (.Primitive (.Address true)) ∧
    (SolidityType.Primitive (.Address true)).display = ("address").data ∧
    SolidityType.parse ((SolidityType.Primitive (.Address true)).display) =
      .ok (.Primitive (.Address false)) ∧
    SolidityType.Primitive (SolidityPrimitiveType.Address false) ≠
      SolidityType.Primitive (SolidityPrimitiveType.Address true) := by
  refine ⟨rfl, rfl, rfl, ?_⟩
  intro h
  injection h with h'
  injection h' with h''
  exact Bool.noConfusion h''

/-- Claim C3 (amended): for every type the string parser can produce
that contains no payable address, parsing back the canonical rendering
reproduces the type exactly; the payable address type breaks the
round-trip because `Display` erases the payable flag. -/
theorem claim_C3 {s : List Char} {T : SolidityType}
    (h : SolidityType.parse s = .ok T) (hp : T.no_payable = true) :
    SolidityType.parse T.display = .ok T :=
  roundtrip_constructible (parse_sound h) hp

theorem claim_C3_witness :
    SolidityType.parse
        ((SolidityType.DynamicArray (.Primitive (.Uint 8))).display) =
      .ok (.DynamicArray (.Primitive (.Uint 8))) :=
  claim_C3 (s := ("uint8[]").data)
    (T := .DynamicArray (.Primitive (.Uint 8))) rfl rfl

/-- Claim C4, counterexample: the check is reversed with respect to the
claim — `Uint(64)` is rejected against the 8-bit Move integer (the claim
says every width-≤-64 source integer is accepted), while `Uint(8)` is
accepted against the 64-bit Move integer (the claim says only the 8-bit
one is). -/
theorem claim_C4_counterexample :
    check_primitive_type_compatibility
        (Context.mk (fun _ => false) (fun _ => false))
        (.Uint 64) (.Primitive .U8) = false ∧
    check_primitive_type_compatibility
        (Context.mk (fun _ => false) (fun _ => false))
        (.Uint 8) (.Primitive .U64) = true :=
  ⟨rfl, rfl⟩

/-- Claim C4 (amended): the compatibility direction is "is the Move type
wide enough to hold the Solidity uint": the 8-bit Move integer accepts
`Uint(n)` iff `n = 8`, and the 64-bit Move integer accepts `Uint(n)` iff
`n ≤ 64`. -/
theorem claim_C4 (ctx : Context) (n : Nat) :
    (check_primitive_type_compatibility ctx (.Uint n) (.Primitive .U8) =
        true ↔ n = 8) ∧
    (check_primitive_type_compatibility ctx (.Uint n) (.Primitive .U64) =
        true ↔ n ≤ 64) := by
  constructor
  · show (n == 8) = true ↔ n = 8
    exact beq_iff_eq ..
  · show decide (n ≤ 64) = true ↔ n ≤ 64
    exact decide_eq_true_iff

/-- Claim C5: parsing `uint` followed by the decimal rendering of `n`
succeeds with `Uint(n)` iff `8 ≤ n ≤ 256` and `n % 8 = 0`; for every
other `n` it fails with an error. -/
theorem claim_C5 (n : Nat) :
    (SolidityType.parse (("uint").data ++ natToChars n) =
        .ok (.Primitive (.Uint n)) ↔ (8 ≤ n ∧ n ≤ 256 ∧ n % 8 = 0)) ∧
    (¬ (8 ≤ n ∧ n ≤ 256 ∧ n % 8 = 0) →
      ∃ e, SolidityType.parse (("uint").data ++ natToChars n) =
        .error e) := by
  have hps := parse_uint_str n
  constructor
  · constructor
    · intro h
      by_cases hr : check_type_int_range n = true
      · exact check_type_int_range_spec hr
      · exfalso
        rw [hps, if_neg hr] at h
        split at h <;> exact Except.noConfusion h
    · intro hcond
      have hr : check_type_int_range n = true := by
        unfold check_type_int_range
        simp only [Bool.and_eq_true, decide_eq_true_eq, beq_iff_eq]
        exact ⟨⟨hcond.1, hcond.2.1⟩, hcond.2.2⟩
      rw [hps, if_pos hr]
  · intro hcond
    have hr : check_type_int_range n = false := by
      cases hc : check_type_int_range n
      · rfl
      · exact absurd (check_type_int_range_spec hc) hcond
    rw [hps, if_neg (by rw [hr]; exact Bool.false_ne_true)]
    split
    · exact ⟨PARSE_ERR_MSG_SIMPLE_TYPE, rfl⟩
    · exact ⟨PARSE_ERR_MSG, rfl⟩

theorem claim_C5_witness :
    ∃ e, SolidityType.parse (("uint").data ++ natToChars 7) =
      Except.error e :=
  (claim_C5 7).2 (by omega)

/-- Claim C6: `uint256[3][]` parses to a dynamic array of a static array
of `uint256` — dimensions attach outside-in, rightmost bracket outermost
— and, being dynamic, its head size is 32 under both paddings. -/
theorem claim_C6 :
    SolidityType.parse (("uint256[3][]").data) =
      .ok (.DynamicArray (.StaticArray (.Primitive (.Uint 256)) 3)) ∧
    (SolidityType.DynamicArray
        (.StaticArray (.Primitive (.Uint 256)) 3)).abi_head_size true = 32 ∧
    (SolidityType.DynamicArray
        (.StaticArray (.Primitive (.Uint 256)) 3)).abi_head_size false = 32 :=
  ⟨rfl, rfl, rfl⟩

/-- Claim C7: `transfer(address,uint256)` parses to the signature with
name `transfer`, the two parameters in order with `Memory` location, no
returns; and its selector-input string is exactly the same text. -/
theorem claim_C7 :
    parse_into_solidity_signature (("transfer(address,uint256)").data) =
      .ok ⟨("transfer").data,
        [(.Primitive (.Address false), .Memory),
         (.Primitive (.Uint 256), .Memory)], []⟩ ∧
    (SoliditySignature.mk (("transfer").data)
      [(.Primitive (.Address false), .Memory),
       (.Primitive (.Uint 256), .Memory)] []).selector_signature =
      ("transfer(address,uint256)").data :=
  ⟨rfl, rfl⟩

/-- Claim C8: attaching a `memory` data-location suffix to a parameter
whose type is a value type makes extraction fail with the dedicated
data-location diagnostic (distinct from the generic parse error); in
particular `parse_into_solidity_signature "f(uint8 memory)"` fails with
exactly that diagnostic. -/
theorem claim_C8 :
    (∀ (ts : List Char) (T : SolidityType), (',' : Char) ∉ ts →
      (∀ c, ts.head? = some c → isWs c = false) →
      SolidityType.parse ts = .ok T → T.is_value_type = true →
      extract_para_type_str (ts ++ (" memory").data) =
        .error DATA_LOCATION_MSG) ∧
    parse_into_solidity_signature (("f(uint8 memory)").data) =
      .error DATA_LOCATION_MSG := by
  constructor
  · intro ts T hcomma hhead hts hv
    rw [extract_memory_suffix hcomma hhead hts, if_pos hv]
  · rfl

theorem claim_C8_witness :
    extract_para_type_str ((("uint8").data) ++ (" memory").data) =
      .error DATA_LOCATION_MSG :=
  claim_C8.1 (("uint8").data) (.Primitive (.Uint 8)) (by decide)
    (fun c hc => by
      rw [show (("uint8").data).head? = some 'u' from rfl,
        Option.some.injEq] at hc
      subst hc
      decide)
    rfl rfl

/-- Claim C9: a parameter ending in the `calldata` suffix always makes
extraction fail with the unsupported-calldata error; a parameter ending
in the `memory` suffix has the suffix stripped and its location recorded
as `Memory` (when the remaining type parses to a non-value type). -/
theorem claim_C9 :
    (∀ (ts : List Char), ts ≠ [] → (',' : Char) ∉ ts →
      (∀ c, ts.head? = some c → isWs c = false) →
      extract_para_type_str (ts ++ (" calldata").data) =
        .error CALLDATA_UNSUPPORTED_MSG) ∧
    (∀ (ts : List Char) (T : SolidityType), (',' : Char) ∉ ts →
      (∀ c, ts.head? = some c → isWs c = false) →
      SolidityType.parse ts = .ok T → T.is_value_type = false →
      extract_para_type_str (ts ++ (" memory").data) =
        .ok [(T, .Memory)]) := by
  constructor
  · intro ts hne hcomma hhead
    exact extract_calldata_suffix hne hcomma hhead
  · intro ts T hcomma hhead hts hv
    rw [extract_memory_suffix hcomma hhead hts,
      if_neg (by rw [hv]; exact Bool.false_ne_true)]

theorem claim_C9_witness :
    extract_para_type_str ((("uint8[]").data) ++ (" calldata").data) =
      .error CALLDATA_UNSUPPORTED_MSG ∧
    extract_para_type_str ((("uint8[]").data) ++ (" memory").data) =
      .ok [(.DynamicArray (.Primitive (.Uint 8)), .Memory)] :=
  ⟨claim_C9.1 (("uint8[]").data) (by decide) (by decide)
      (fun c hc => by
        rw [show (("uint8[]").data).head? = some 'u' from rfl,
          Option.some.injEq] at hc
        subst hc
        decide),
   claim_C9.2 (("uint8[]").data) (.DynamicArray (.Primitive (.Uint 8)))
      (by decide)
      (fun c hc => by
        rw [show (("uint8[]").data).head? = some 'u' from rfl,
          Option.some.injEq] at hc
        subst hc
        decide)
      rfl rfl⟩

/-- Claim C10: the canonical rendering erases the payable flag — both
address types display as `address` — so selector-input strings are
invariant under erasing payability from every parameter type. -/
theorem claim_C10 :
    (SolidityType.Primitive (.Address true)).display = ("address").data ∧
    (SolidityType.Primitive (.Address false)).display = ("address").data ∧
    ∀ (sig : SoliditySignature),
      (SoliditySignature.mk sig.sig_name
        (sig.para_types.map (fun p => (p.1.erase_payable, p.2)))
        sig.ret_types).selector_signature = sig.selector_signature := by
  refine ⟨rfl, rfl, ?_⟩
  intro sig
  unfold SoliditySignature.selector_signature compute_param_types
  have hmap : (sig.para_types.map
        (fun p => (p.1.erase_payable, p.2))).map Prod.fst =
      (sig.para_types.map Prod.fst).map SolidityType.erase_payable := by
    rw [List.map_map, List.map_map]
    rfl
  rw [hmap, displayList_map_erase]

end MoveToYul
